import Mathlib

/-!
# NES-Emu: the 6502 CPU core of `src/cpu.c`

A shallow embedding of `cpu.c`.  Every C function becomes a Lean function of
the same name.  A function that can hit an `assert` returns `Option`: `none`
is the aborted run.  The CPU is passed explicitly and returned.

Machine integers
* `int8_t`, `int16_t`: the integers of the type's range; a conversion to the
  type wraps modulo `2^8`, `2^16` (`toInt8`, `toInt16`).
* `uint16_t`: the naturals below `65536`.
* `int` (what every operand of a C operator is promoted to) is 32 bits wide;
  the bitwise operators work on the two's-complement pattern (`c_and`, ...).
-/

namespace NESEmu

/-! ## Machine integers -/

/-- The C type `int8_t`. -/
abbrev int8_t : Type := { x : Int // -128 ≤ x ∧ x ≤ 127 }

/-- The C type `int16_t`. -/
abbrev int16_t : Type := { x : Int // -32768 ≤ x ∧ x ≤ 32767 }

/-- The C type `uint16_t`. -/
abbrev uint16_t : Type := Fin 65536

/-- Conversion of an `int` to `int8_t`: the low 8 bits, read in two's complement. -/
def toInt8 (x : Int) : int8_t := ⟨(x + 128) % 256 - 128, by omega⟩

/-- Conversion of an `int` to `int16_t`: the low 16 bits, read in two's complement. -/
def toInt16 (x : Int) : int16_t := ⟨(x + 32768) % 65536 - 32768, by omega⟩

/-- Conversion of an `int` to `uint16_t`: the low 16 bits. -/
def toUint16 (x : Int) : uint16_t := ⟨(x % 65536).toNat, by omega⟩

/-- The 32-bit two's-complement pattern of an `int`. -/
def toU32 (x : Int) : Nat := (x % 4294967296).toNat

/-- The `int` whose 32-bit two's-complement pattern is `n`. -/
def ofU32 (n : Nat) : Int :=
  if n < 2147483648 then (n : Int) else (n : Int) - 4294967296

/-- C `x & y` on `int`. -/
def c_and (x y : Int) : Int := ofU32 (toU32 x &&& toU32 y)

/-- C `x | y` on `int`. -/
def c_or (x y : Int) : Int := ofU32 (toU32 x ||| toU32 y)

/-- C `x ^ y` on `int`. -/
def c_xor (x y : Int) : Int := ofU32 (toU32 x ^^^ toU32 y)

/-- C `~x` on `int`. -/
def c_not (x : Int) : Int := ofU32 (toU32 x ^^^ 4294967295)

/-- C `x << k` on `int` (the shifted 32-bit pattern). -/
def c_shl (x : Int) (k : Int) : Int := ofU32 ((toU32 x <<< k.toNat) % 4294967296)

/-- C `x >> k` on `int`: the arithmetic shift, as gcc and clang compile it. -/
def c_shr (x : Int) (k : Int) : Int := x / 2 ^ k.toNat

/-- The byte `x` read as an unsigned value `0..255`. -/
def u8 (x : int8_t) : Nat := (x.val % 256).toNat

/-! ## Declarations of `cpu.h` -/

/-- Modelled from the spec: `cpu.h` is not among the sources.  The five
register names that `cpu.c` uses to index `regs` (section 3 of the spec:
Status, StackPointer, Accumulator, IndexX, IndexY). -/
inductive REG where
  | STATUS | STACK | ACCUM | IND_X | IND_Y
  deriving DecidableEq, Repr

/-- Modelled from the spec: `cpu.h` is not among the sources.  The flag names
that `cpu.c` uses, in the bit order of section 3 of the spec and of the
`SVUBDIZC` header that `print` writes. -/
inductive FLAG where
  | C | Z | I | D | B | NOT_USED_FLAG | V | S
  deriving DecidableEq, Repr

/-- Modelled from the spec: the value of each `FLAG` enumerator, which is the
index of its bit in the status register (0 Carry, 1 Zero, 2 InterruptDisable,
3 Decimal, 4 Break, 5 Unused, 6 Overflow, 7 Sign). -/
def FLAG.toInt : FLAG → Int
  | .C => 0 | .Z => 1 | .I => 2 | .D => 3 | .B => 4
  | .NOT_USED_FLAG => 5 | .V => 6 | .S => 7

/-- Modelled from the spec: `cpu.h` is not among the sources.  The addressing
modes; `cpu.c` only ever compares a mode with `Accumulator`. -/
inductive MODE where
  | Immediate | ZeroPage | ZeroPageX | ZeroPageY | Absolute | AbsoluteX
  | AbsoluteY | Indirect | IndirectX | IndirectY | Relative | Accumulator
  | Implied
  deriving DecidableEq, Repr

/-- Modelled from the spec: the `CPU` struct of `cpu.h`: a 16-bit program
counter, the five 8-bit registers and the 64KB address space. -/
structure CPU where
  PC : uint16_t
  regs : REG → int8_t
  addressSpace : uint16_t → int8_t

/-- Modelled from the spec: the `OP_CODE_INFO` struct of `cpu.h`, with the
field types of the parameters of `getOP_CODE_INFO`. -/
structure OP_CODE_INFO where
  operand : int8_t
  address : uint16_t
  mode : MODE

/-! ## Register and flag accessors -/

/-- `setRegBit`: both assertions, then the one-bit update of `regs[name]`. -/
def setRegBit (c : CPU) (name : REG) (bit val : int8_t) : Option CPU :=
  if bit.val > -1 ∧ bit.val < 8 then
    if val.val = 0 ∨ val.val = 1 then
      let r := toInt8 (c_or (c_and (c.regs name).val (c_not (c_shl 1 bit.val)))
                            (c_shl val.val bit.val))
      some { c with regs := Function.update c.regs name r }
    else none
  else none

/-- `getRegBit`: the assertion, then the test of one bit of `regs[name]`. -/
def getRegBit (c : CPU) (name : REG) (bit : int8_t) : Option int8_t :=
  if bit.val > -1 ∧ bit.val < 8 then
    some (toInt8 (if c_and (c.regs name).val (c_shl 1 bit.val) > 0 then 1 else 0))
  else none

/-- `getCPU`: zeroed registers and memory, `PC = 0`, then status bit 5 set. -/
def getCPU : Option CPU :=
  setRegBit { PC := 0, regs := fun _ => toInt8 0, addressSpace := fun _ => toInt8 0 }
    REG.STATUS (toInt8 5) (toInt8 1)

/-- `resetCPU`: both `memset`s, `PC = 0`, then status bit 5 set. -/
def resetCPU (c : CPU) : Option CPU :=
  let c := { c with regs := fun _ => toInt8 0 }
  let c := { c with addressSpace := fun _ => toInt8 0 }
  let c := { c with PC := 0 }
  setRegBit c REG.STATUS (toInt8 5) (toInt8 1)

/-- `setRegByte`. -/
def setRegByte (c : CPU) (name : REG) (val : int8_t) : CPU :=
  { c with regs := Function.update c.regs name val }

/-- `getRegByte`. -/
def getRegByte (c : CPU) (name : REG) : int8_t := c.regs name

/-- `setFlag`: the assertion on the reserved flag, then `setRegBit` on the
status register (the enumerator is converted to the `int8_t` bit index). -/
def setFlag (c : CPU) (name : FLAG) (val : int8_t) : Option CPU :=
  if name ≠ FLAG.NOT_USED_FLAG then setRegBit c REG.STATUS (toInt8 name.toInt) val
  else none

/-- `getFlag`: the assertion on the reserved flag, then `getRegBit`. -/
def getFlag (c : CPU) (name : FLAG) : Option int8_t :=
  if name ≠ FLAG.NOT_USED_FLAG then getRegBit c REG.STATUS (toInt8 name.toInt)
  else none

/-- `read`. -/
def read (c : CPU) (addr : uint16_t) : int8_t := c.addressSpace addr

/-- `write`. -/
def write (c : CPU) (addr : uint16_t) (val : int8_t) : CPU :=
  { c with addressSpace := Function.update c.addressSpace addr val }

/-! ## Flag register operations -/

/-- `setCarry`. -/
def setCarry (c : CPU) (val : int16_t) : Option CPU :=
  let carry := toInt8 (if val.val > 0xFF then 1 else 0)
  setFlag c FLAG.C carry

/-- `setCarryBCD`. -/
def setCarryBCD (c : CPU) (val : int16_t) : Option CPU :=
  let carry := toInt8 (if val.val > 0x99 then 1 else 0)
  setFlag c FLAG.C carry

/-- `setOverflow`: `!((a ^ b) & 0x80) && ((a ^ val) & 0x80)`. -/
def setOverflow (c : CPU) (a b val : int8_t) : Option CPU :=
  let overflow := toInt8
    (if c_and (c_xor a.val b.val) 0x80 = 0 ∧ c_and (c_xor a.val val.val) 0x80 ≠ 0
     then 1 else 0)
  setFlag c FLAG.V overflow

/-- `setOverflowSubtract`: `((a ^ b) & 0x80) && ((a ^ val) & 0x80)`. -/
def setOverflowSubtract (c : CPU) (a b val : int8_t) : Option CPU :=
  let overflow := toInt8
    (if c_and (c_xor a.val b.val) 0x80 ≠ 0 ∧ c_and (c_xor a.val val.val) 0x80 ≠ 0
     then 1 else 0)
  setFlag c FLAG.V overflow

/-- `setSign`: `val & 0x80 ? 1 : 0`. -/
def setSign (c : CPU) (val : int8_t) : Option CPU :=
  let sign := toInt8 (if c_and val.val 0x80 ≠ 0 then 1 else 0)
  setFlag c FLAG.S sign

/-- `setZero`: `val ? 0 : 1`. -/
def setZero (c : CPU) (val : int8_t) : Option CPU :=
  let isZero := toInt8 (if val.val ≠ 0 then 0 else 1)
  setFlag c FLAG.Z isZero

/-- `getOP_CODE_INFO`. -/
def getOP_CODE_INFO (operand : int8_t) (address : uint16_t) (mode : MODE) :
    OP_CODE_INFO :=
  { operand := operand, address := address, mode := mode }

/-- `PUSH`: the body is empty in `cpu.c`. -/
def PUSH (c : CPU) (_o : OP_CODE_INFO) (_operand : int8_t) : CPU := c

/-! ## Opcode implementations -/

/-- `ADC`: add with carry. -/
def ADC (c : CPU) (o : OP_CODE_INFO) : Option CPU := do
  let carry ← getFlag c FLAG.C
  let accum := getRegByte c REG.ACCUM
  let operand := o.operand
  let sum := toInt16 (c_and 0x00FF carry.val + c_and 0x00FF accum.val
                      + c_and 0x00FF operand.val)
  let sumByte := toInt8 (c_and sum.val 0x00FF)
  let c ← setZero c sumByte
  let d ← getFlag c FLAG.D
  let r ← (if d.val ≠ 0 then do
      let sum := if c_and accum.val 0xF + c_and operand.val 0xF + carry.val > 9
                 then toInt16 (sum.val + 6) else sum
      let c ← setSign c sumByte
      let c ← setOverflow c accum operand sumByte
      let sum := toInt16 (sum.val + (if sum.val > 0x99 then 96 else 0))
      let c ← setCarryBCD c sum
      pure (c, sum)
    else do
      let c ← setSign c sumByte
      let c ← setOverflow c accum operand sumByte
      let c ← setCarry c sum
      pure (c, sum))
  pure (setRegByte r.1 REG.ACCUM (toInt8 (c_and r.2.val 0xFF)))

/-- `AND`. -/
def AND (c : CPU) (o : OP_CODE_INFO) : Option CPU := do
  let accum := getRegByte c REG.ACCUM
  let operand := o.operand
  let res := toInt8 (c_and accum.val operand.val)
  let c ← setSign c res
  let c ← setZero c res
  pure (setRegByte c REG.ACCUM res)

/-- `ASL`: arithmetic shift left. -/
def ASL (c : CPU) (o : OP_CODE_INFO) : Option CPU := do
  let operand := o.operand
  let res := toInt16 (c_shl (c_and 0x00FF operand.val) 1)
  let resByte := toInt8 (c_and res.val 0x00FF)
  let c ← setCarry c res
  let c ← setSign c resByte
  let c ← setZero c resByte
  if o.mode = MODE.Accumulator then
    pure (setRegByte c REG.ACCUM (toInt8 res.val))
  else
    pure (write c o.address (toInt8 res.val))

/-- `BCC`: branch if carry clear. -/
def BCC (c : CPU) (o : OP_CODE_INFO) : Option CPU := do
  let f ← getFlag c FLAG.C
  if f.val = 0 then pure { c with PC := o.address } else pure c

/-- `BCS`: branch if carry set. -/
def BCS (c : CPU) (o : OP_CODE_INFO) : Option CPU := do
  let f ← getFlag c FLAG.C
  if f.val ≠ 0 then pure { c with PC := o.address } else pure c

/-- `BEQ`: branch if equals. -/
def BEQ (c : CPU) (o : OP_CODE_INFO) : Option CPU := do
  let f ← getFlag c FLAG.Z
  if f.val ≠ 0 then pure { c with PC := o.address } else pure c

/-- `BIT`: test bits in memory with accumulator. -/
def BIT (c : CPU) (o : OP_CODE_INFO) : Option CPU := do
  let src := o.operand
  let accum := getRegByte c REG.ACCUM
  let c ← setFlag c FLAG.V (toInt8 (c_and src.val 0x40))
  let c ← setFlag c FLAG.S src
  setFlag c FLAG.Z (toInt8 (c_and src.val accum.val))

/-- `BMI`: branch if result minus. -/
def BMI (c : CPU) (o : OP_CODE_INFO) : Option CPU := do
  let f ← getFlag c FLAG.S
  if f.val ≠ 0 then pure { c with PC := o.address } else pure c

/-- `BNE`: branch if not equals. -/
def BNE (c : CPU) (o : OP_CODE_INFO) : Option CPU := do
  let f ← getFlag c FLAG.Z
  if f.val = 0 then pure { c with PC := o.address } else pure c

/-- `BPL`: branch if result plus. -/
def BPL (c : CPU) (o : OP_CODE_INFO) : Option CPU := do
  let f ← getFlag c FLAG.S
  if f.val = 0 then pure { c with PC := o.address } else pure c

/-- `BRK`: force break. -/
def BRK (c : CPU) (o : OP_CODE_INFO) : Option CPU := do
  let c := { c with PC := toUint16 ((c.PC.val : Int) + 1) }
  let c := PUSH c o (toInt8 (c_and (c_shr (c.PC.val : Int) 8) 0xff))
  let c := PUSH c o (toInt8 (c_and (c.PC.val : Int) 0xff))
  let c ← setFlag c FLAG.B (toInt8 1)
  let c := PUSH c o (getRegByte c REG.STATUS)
  setFlag c FLAG.D (toInt8 1)

/-- `BVC`: branch if overflow clear. -/
def BVC (c : CPU) (o : OP_CODE_INFO) : Option CPU := do
  let f ← getFlag c FLAG.V
  if f.val = 0 then pure { c with PC := o.address } else pure c

/-- `BVS`: branch on overflow set. -/
def BVS (c : CPU) (o : OP_CODE_INFO) : Option CPU := do
  let f ← getFlag c FLAG.V
  if f.val ≠ 0 then pure { c with PC := o.address } else pure c

/-- `CLC`: clear carry flag. -/
def CLC (c : CPU) (_o : OP_CODE_INFO) : Option CPU := setFlag c FLAG.C (toInt8 0)

/-- `CLD`: clear decimal mode. -/
def CLD (c : CPU) (_o : OP_CODE_INFO) : Option CPU := setFlag c FLAG.D (toInt8 0)

/-- `CLI`: clear interrupt disable bit. -/
def CLI (c : CPU) (_o : OP_CODE_INFO) : Option CPU := setFlag c FLAG.I (toInt8 0)

/-- `CLV`: clear overflow flag. -/
def CLV (c : CPU) (_o : OP_CODE_INFO) : Option CPU := setFlag c FLAG.V (toInt8 0)

/-- `CMP`: compare memory and accumulator. -/
def CMP (c : CPU) (o : OP_CODE_INFO) : Option CPU := do
  let src := toInt8 ((getRegByte c REG.ACCUM).val - (o.address.val : Int))
  let c ← setFlag c FLAG.C (toInt8 (if src.val < 0x100 then 1 else 0))
  let c ← setFlag c FLAG.S (toInt8 (c_and src.val 0x40))
  let src := toInt8 (c_and src.val 0xff)
  setFlag c FLAG.Z src

/-- `CPX`: compare memory and index x. -/
def CPX (c : CPU) (o : OP_CODE_INFO) : Option CPU := do
  let src := toInt8 ((getRegByte c REG.IND_X).val - (o.address.val : Int))
  let c ← setFlag c FLAG.C (toInt8 (if src.val < 0x100 then 1 else 0))
  let c ← setFlag c FLAG.S (toInt8 (c_and src.val 0x40))
  let src := toInt8 (c_and src.val 0xff)
  setFlag c FLAG.Z src

/-- `CPY`: compare memory and index y. -/
def CPY (c : CPU) (o : OP_CODE_INFO) : Option CPU := do
  let src := toInt8 ((getRegByte c REG.IND_Y).val - (o.address.val : Int))
  let c ← setFlag c FLAG.C (toInt8 (if src.val < 0x100 then 1 else 0))
  let c ← setFlag c FLAG.S (toInt8 (c_and src.val 0x40))
  let src := toInt8 (c_and src.val 0xff)
  setFlag c FLAG.Z src

/-- `JMP`: jump PC to 16 bit operand. -/
def JMP (c : CPU) (o : OP_CODE_INFO) : Option CPU :=
  some { c with PC := toUint16 (c_and 0xFFFF (o.address.val : Int)) }

/-- `JSR`: jump to subroutine. -/
def JSR (c : CPU) (o : OP_CODE_INFO) : Option CPU :=
  let c := { c with PC := toUint16 ((c.PC.val : Int) - 1) }
  let c := PUSH c o (toInt8 (c_and (c_shr (c.PC.val : Int) 8) 0xFF))
  let c := PUSH c o (toInt8 (c_and (c.PC.val : Int) 0xFF))
  some { c with PC := toUint16 o.operand.val }

/-- `LDA`: load value into accumulator. -/
def LDA (c : CPU) (o : OP_CODE_INFO) : Option CPU := do
  let c ← setSign c o.operand
  let c ← setZero c o.operand
  pure (setRegByte c REG.ACCUM o.operand)

/-- `LDX`: load value into x reg. -/
def LDX (c : CPU) (o : OP_CODE_INFO) : Option CPU := do
  let c ← setSign c o.operand
  let c ← setZero c o.operand
  pure (setRegByte c REG.IND_X o.operand)

/-- `LDY`: load value into y reg. -/
def LDY (c : CPU) (o : OP_CODE_INFO) : Option CPU := do
  let c ← setSign c o.operand
  let c ← setZero c o.operand
  pure (setRegByte c REG.IND_Y o.operand)

/-- `LSR`: logical shift right. -/
def LSR (c : CPU) (o : OP_CODE_INFO) : Option CPU := do
  let c ← setFlag c FLAG.C (toInt8 (c_and o.operand.val 0x01))
  let shifted := toInt8 (c_shr o.operand.val 1)
  let c ← setSign c shifted
  let c ← setZero c shifted
  if o.mode = MODE.Accumulator then
    pure (setRegByte c REG.ACCUM shifted)
  else
    pure (write c o.address shifted)

/-- `NOP`: no operation. -/
def NOP (c : CPU) (_o : OP_CODE_INFO) : Option CPU := some c

/-- `ORA`: OR memory with accumulator. -/
def ORA (c : CPU) (o : OP_CODE_INFO) : Option CPU := do
  let src := toInt8 (c_or o.operand.val (getRegByte c REG.ACCUM).val)
  let c ← setFlag c FLAG.Z src
  let c ← setFlag c FLAG.S src
  pure (setRegByte c REG.ACCUM src)

/-- `PHA`: push accumulator onto stack. -/
def PHA (c : CPU) (o : OP_CODE_INFO) : Option CPU :=
  some (PUSH c o (getRegByte c REG.ACCUM))

/-- `PHP`: push status register onto stack. -/
def PHP (c : CPU) (o : OP_CODE_INFO) : Option CPU :=
  some (PUSH c o (getRegByte c REG.STATUS))

/-- `PLA`: the body is a comment in `cpu.c`. -/
def PLA (c : CPU) (_o : OP_CODE_INFO) : Option CPU := some c

/-- `PLP`: the body is a comment in `cpu.c`. -/
def PLP (c : CPU) (_o : OP_CODE_INFO) : Option CPU := some c

/-- `SBC`: subtract operand from accumulator with borrow. -/
def SBC (c : CPU) (o : OP_CODE_INFO) : Option CPU := do
  let carry ← getFlag c FLAG.C
  let accum := getRegByte c REG.ACCUM
  let operand := o.operand
  let diff := toInt16 (c_and 0x00FF accum.val - c_and 0x00FF operand.val
                       - c_and 0x00FF carry.val)
  let diffByte := toInt8 (c_and diff.val 0x00FF)
  let c ← setSign c diffByte
  let c ← setZero c diffByte
  let c ← setOverflowSubtract c accum operand diffByte
  let d ← getFlag c FLAG.D
  let diff :=
    if d.val ≠ 0 then
      let diff := if c_and accum.val 0xF - carry.val < c_and operand.val 0xF
                  then toInt16 (diff.val - 6) else diff
      if diff.val > 0x99 then toInt16 (diff.val - 0x60) else diff
    else diff
  let c ← setFlag c FLAG.C (toInt8 (if diff.val < 0x100 then 1 else 0))
  pure (setRegByte c REG.ACCUM (toInt8 (c_and diff.val 0xFF)))

/-- `SEC`: set carry flag to 1. -/
def SEC (c : CPU) (_o : OP_CODE_INFO) : Option CPU := setFlag c FLAG.C (toInt8 1)

/-- `STA`: store accumulator reg into memory. -/
def STA (c : CPU) (o : OP_CODE_INFO) : Option CPU :=
  some (write c o.address (getRegByte c REG.ACCUM))

/-- `STX`: store X reg into memory. -/
def STX (c : CPU) (o : OP_CODE_INFO) : Option CPU :=
  some (write c o.address (getRegByte c REG.IND_X))

/-- `TAY`: transfer accumulator to Y reg. -/
def TAY (c : CPU) (_o : OP_CODE_INFO) : Option CPU :=
  let accumVal := getRegByte c REG.ACCUM
  some (setRegByte c REG.IND_Y accumVal)

/-- `TYA`: transfer Y to accumulator. -/
def TYA (c : CPU) (_o : OP_CODE_INFO) : Option CPU :=
  let accumVal := getRegByte c REG.IND_Y
  some (setRegByte c REG.ACCUM accumVal)

/-- Every opcode implementation of `cpu.c`. -/
def handlers : List (CPU → OP_CODE_INFO → Option CPU) :=
  [ADC, AND, ASL, BCC, BCS, BEQ, BIT, BMI, BNE, BPL, BRK, BVC, BVS, CLC, CLD,
   CLI, CLV, CMP, CPX, CPY, JMP, JSR, LDA, LDX, LDY, LSR, NOP, ORA, PHA, PHP,
   PLA, PLP, SBC, SEC, STA, STX, TAY, TYA]

/-! ## Observations used by the statements -/

/-- The value `val` is a single bit: `0` or `1`. -/
def isBit (val : int8_t) : Prop := val.val = 0 ∨ val.val = 1

instance (val : int8_t) : Decidable (isBit val) := by
  unfold isBit; infer_instance

/-- The byte that the assignment in `setRegBit` stores. -/
def bitSet (r bit val : int8_t) : int8_t :=
  toInt8 (c_or (c_and r.val (c_not (c_shl 1 bit.val))) (c_shl val.val bit.val))

/-- The value that `getRegBit` returns. -/
def bitGet (r bit : int8_t) : int8_t :=
  toInt8 (if c_and r.val (c_shl 1 bit.val) > 0 then 1 else 0)

/-- The CPU after a `setFlag` that passes its assertions. -/
def CPU.withFlag (c : CPU) (f : FLAG) (v : int8_t) : CPU :=
  setRegByte c REG.STATUS (bitSet (c.regs REG.STATUS) (toInt8 f.toInt) v)

/-- The value of one status bit, as `getRegBit` computes it. -/
def CPU.flag (c : CPU) (f : FLAG) : int8_t :=
  bitGet (c.regs REG.STATUS) (toInt8 f.toInt)

/-- A CPU with the given status and accumulator bytes, everything else zero. -/
def cpuWith (status accum : Int) : CPU :=
  { PC := 0
    regs := fun r => match r with
      | REG.STATUS => toInt8 status
      | REG.ACCUM => toInt8 accum
      | _ => toInt8 0
    addressSpace := fun _ => toInt8 0 }

/-- The byte `x` is packed BCD: both nibbles are at most 9. -/
def validBCD (x : int8_t) : Prop := u8 x / 16 ≤ 9 ∧ u8 x % 16 ≤ 9

instance (x : int8_t) : Decidable (validBCD x) := by
  unfold validBCD; infer_instance

/-- The decimal value `0..99` that a packed-BCD byte denotes. -/
def bcdValue (x : int8_t) : Nat := 10 * (u8 x / 16) + u8 x % 16

/-- The packed-BCD encoding of a decimal value `n < 100`. -/
def bcdEncode (n : Nat) : Nat := 16 * (n / 10) + n % 10

/-- Status bit 5 reads as 1. -/
def bit5 (c : CPU) : Prop := getRegBit c REG.STATUS (toInt8 5) = some (toInt8 1)

instance (c : CPU) : Decidable (bit5 c) := by
  unfold bit5; infer_instance

/-- The states that the CPU can be in: the state that `getCPU` returns, the state
that `resetCPU` leaves (from any state), and every state that a `setFlag` call or
an opcode implementation that runs to completion leads to from such a state. -/
inductive Reachable : CPU → Prop where
  | init (c : CPU) : getCPU = some c → Reachable c
  | reset (c0 c : CPU) : resetCPU c0 = some c → Reachable c
  | flag (c c' : CPU) (f : FLAG) (v : int8_t) :
      Reachable c → setFlag c f v = some c' → Reachable c'
  | handler (c c' : CPU) (h : CPU → OP_CODE_INFO → Option CPU) (o : OP_CODE_INFO) :
      Reachable c → h ∈ handlers → h c o = some c' → Reachable c'

/-- Every result of the computation `x` satisfies `P`. -/
def PresBy {α : Type} (P : α → Prop) (x : Option α) : Prop := ∀ a, x = some a → P a

/-- The state that `getCPU` returns: everything zero, status `0x20`. -/
def initCPU : CPU :=
  setRegByte { PC := 0, regs := fun _ => toInt8 0, addressSpace := fun _ => toInt8 0 }
    REG.STATUS (toInt8 0x20)

/-- What a load of `o->operand` into the register `R` leaves, from the state `c`:
the register holds the operand, Zero and Sign are those of the operand, and the PC,
the memory, the other registers and the other six status bits are as in `c`. -/
def loadPost (R : REG) (c : CPU) (o : OP_CODE_INFO) (c' : CPU) : Prop :=
  getRegByte c' R = o.operand
    ∧ getFlag c' FLAG.Z = some (toInt8 (if u8 o.operand = 0 then 1 else 0))
    ∧ getFlag c' FLAG.S = some (toInt8 ((u8 o.operand / 128 : Nat) : Int))
    ∧ c'.PC = c.PC
    ∧ c'.addressSpace = c.addressSpace
    ∧ (∀ R', R' ≠ R → R' ≠ REG.STATUS → getRegByte c' R' = getRegByte c R')
    ∧ (∀ b : int8_t, 0 ≤ b.val ∧ b.val ≤ 7 → b ≠ toInt8 1 → b ≠ toInt8 7 →
        getRegBit c' REG.STATUS b = getRegBit c REG.STATUS b)

/-- The widened difference that `SBC` starts from (`diff` before the decimal
correction). -/
def sbcDiff (carry accum operand : int8_t) : int16_t :=
  toInt16 (c_and 0x00FF accum.val - c_and 0x00FF operand.val - c_and 0x00FF carry.val)

/-- The value of `diff` in `SBC` after the `if(getFlag(c,D))` block, where `d` is the
Decimal flag. -/
def sbcAdjust (d carry accum operand : int8_t) (diff : int16_t) : int16_t :=
  if d.val ≠ 0 then
    let diff := if c_and accum.val 0xF - carry.val < c_and operand.val 0xF
                then toInt16 (diff.val - 6) else diff
    if diff.val > 0x99 then toInt16 (diff.val - 0x60) else diff
  else diff

/-- `setRegBit`, keeping the CPU that the call ends with: `Except.error c` is the run
that stops at a failed assertion with the CPU struct holding `c`, `Except.ok c'` is the
run that returns. -/
def setRegBitRun (c : CPU) (name : REG) (bit val : int8_t) : Except CPU CPU :=
  if bit.val > -1 ∧ bit.val < 8 then
    if val.val = 0 ∨ val.val = 1 then
      let r := toInt8 (c_or (c_and (c.regs name).val (c_not (c_shl 1 bit.val)))
                            (c_shl val.val bit.val))
      Except.ok { c with regs := Function.update c.regs name r }
    else Except.error c
  else Except.error c

/-- `getRegBit`, keeping the CPU that a failed assertion stops with. -/
def getRegBitRun (c : CPU) (name : REG) (bit : int8_t) : Except CPU int8_t :=
  if bit.val > -1 ∧ bit.val < 8 then
    Except.ok (toInt8 (if c_and (c.regs name).val (c_shl 1 bit.val) > 0 then 1 else 0))
  else Except.error c

/-- `setFlag`, keeping the CPU that the call ends with. -/
def setFlagRun (c : CPU) (name : FLAG) (val : int8_t) : Except CPU CPU :=
  if name ≠ FLAG.NOT_USED_FLAG then setRegBitRun c REG.STATUS (toInt8 name.toInt) val
  else Except.error c

/-- `getFlag`, keeping the CPU that a failed assertion stops with. -/
def getFlagRun (c : CPU) (name : FLAG) : Except CPU int8_t :=
  if name ≠ FLAG.NOT_USED_FLAG then getRegBitRun c REG.STATUS (toInt8 name.toInt)
  else Except.error c

/-! ## Machine-integer lemmas -/

@[simp] theorem toInt8_val (x : Int) : (toInt8 x).val = (x + 128) % 256 - 128 := rfl

@[simp] theorem toInt16_val (x : Int) :
    (toInt16 x).val = (x + 32768) % 65536 - 32768 := rfl

theorem toInt8_u8 (x : int8_t) : toInt8 (u8 x : Int) = x := by
  apply Subtype.ext
  have h := x.property
  simp only [toInt8_val, u8]
  omega

theorem u8_lt (x : int8_t) : u8 x < 256 := by
  unfold u8; omega

theorem toU32_lt (x : Int) : toU32 x < 4294967296 := by
  unfold toU32; omega

theorem c_and_comm (x y : Int) : c_and x y = c_and y x := by
  unfold c_and; rw [Nat.and_comm]

theorem c_and_255 (x : Int) : c_and x 255 = x % 256 := by
  have h : toU32 255 = 2 ^ 8 - 1 := by decide
  unfold c_and
  rw [h, Nat.and_pow_two_sub_one_eq_mod]
  unfold toU32 ofU32
  norm_num
  omega

theorem c_and_15 (x : Int) : c_and x 15 = x % 16 := by
  have h : toU32 15 = 2 ^ 4 - 1 := by decide
  unfold c_and
  rw [h, Nat.and_pow_two_sub_one_eq_mod]
  unfold toU32 ofU32
  norm_num
  omega

theorem c_and_128 (x : Int) : c_and x 128 = (x / 128 % 2) * 128 := by
  have h : toU32 128 = 2 ^ 7 := by decide
  unfold c_and
  rw [h, Nat.and_two_pow, Nat.toNat_testBit]
  unfold toU32 ofU32
  norm_num
  omega

theorem c_and_64 (x : Int) : c_and x 64 = (x / 64 % 2) * 64 := by
  have h : toU32 64 = 2 ^ 6 := by decide
  unfold c_and
  rw [h, Nat.and_two_pow, Nat.toNat_testBit]
  unfold toU32 ofU32
  norm_num
  omega

theorem xor_bit7 (a b : Nat) :
    (a ^^^ b) / 128 % 2 = (a / 128 % 2 + b / 128 % 2) % 2 := by
  have h := Nat.testBit_xor a b 7
  have e1 := Nat.toNat_testBit (a ^^^ b) 7
  have e2 := Nat.toNat_testBit a 7
  have e3 := Nat.toNat_testBit b 7
  rw [h] at e1
  norm_num at e1 e2 e3
  rw [← e1, ← e2, ← e3]
  cases a.testBit 7 <;> cases b.testBit 7 <;> rfl

theorem c_and_xor_128 (a b : Int) :
    c_and (c_xor a b) 128 = ((a / 128 % 2 + b / 128 % 2) % 2) * 128 := by
  rw [c_and_128]
  unfold c_xor
  have hx := xor_bit7 (toU32 a) (toU32 b)
  have hlt : toU32 a ^^^ toU32 b < 2 ^ 32 :=
    Nat.xor_lt_two_pow (toU32_lt a) (toU32_lt b)
  generalize toU32 a ^^^ toU32 b = n at hx hlt
  unfold toU32 at hx
  unfold ofU32
  split <;> omega

/-! ## One bit of a byte -/

set_option maxRecDepth 100000 in
theorem bitGet_nat : ∀ r, r < 256 → ∀ b, b < 8 →
    (bitGet (toInt8 (r : Nat)) (toInt8 (b : Nat))).val
      = (((r.testBit b).toNat : Nat) : Int) := by
  decide!

set_option maxRecDepth 100000 in
theorem bitSet_nat : ∀ r, r < 256 → ∀ b, b < 8 → ∀ v, v < 2 →
    u8 (bitSet (toInt8 (r : Nat)) (toInt8 (b : Nat)) (toInt8 (v : Nat)))
      = (r &&& (255 - 2 ^ b)) ||| (v <<< b) := by
  decide!

theorem testBit_mask : ∀ b, b < 8 → ∀ i, i < 8 →
    (255 - 2 ^ b).testBit i = decide (i ≠ b) := by
  decide

theorem testBit_shifted : ∀ v, v < 2 → ∀ b, b < 8 → ∀ i, i < 8 →
    (v <<< b).testBit i = (decide (i = b) && decide (v = 1)) := by
  decide

theorem bitGet_val (r b : int8_t) (hb : 0 ≤ b.val ∧ b.val ≤ 7) :
    (bitGet r b).val = ((((u8 r).testBit (u8 b)).toNat : Nat) : Int) := by
  have key := bitGet_nat (u8 r) (u8_lt r) (u8 b) (by unfold u8; omega)
  simpa only [toInt8_u8] using key

theorem u8_bitSet (r b v : int8_t) (hb : 0 ≤ b.val ∧ b.val ≤ 7) (hv : isBit v) :
    u8 (bitSet r b v) = (u8 r &&& (255 - 2 ^ u8 b)) ||| (u8 v <<< u8 b) := by
  have key := bitSet_nat (u8 r) (u8_lt r) (u8 b) (by unfold u8; omega) (u8 v)
    (by unfold u8; unfold isBit at hv; omega)
  simpa only [toInt8_u8] using key

theorem bitGet_bitSet (r b b' v : int8_t) (hb : 0 ≤ b.val ∧ b.val ≤ 7)
    (hb' : 0 ≤ b'.val ∧ b'.val ≤ 7) (hv : isBit v) :
    bitGet (bitSet r b v) b' = if b' = b then v else bitGet r b' := by
  have hlb : u8 b < 8 := by unfold u8; omega
  have hlb' : u8 b' < 8 := by unfold u8; omega
  have hlv : u8 v < 2 := by unfold u8; unfold isBit at hv; omega
  apply Subtype.ext
  rw [bitGet_val _ _ hb', u8_bitSet _ _ _ hb hv, Nat.testBit_or, Nat.testBit_and,
    testBit_mask _ hlb _ hlb', testBit_shifted _ hlv _ hlb _ hlb']
  by_cases h : b' = b
  · subst h
    have hv1 : v.val = ((u8 v : Nat) : Int) := by
      unfold u8; unfold isBit at hv; omega
    rw [if_pos rfl, hv1]
    have : u8 v = 0 ∨ u8 v = 1 := by omega
    rcases this with h0 | h1
    · simp [h0]
    · simp [h1]
  · have hne : u8 b' ≠ u8 b := by
      intro he
      apply h
      apply Subtype.ext
      unfold u8 at he
      omega
    rw [if_neg h, bitGet_val _ _ hb']
    simp [hne]

theorem isBit_bitGet (r b : int8_t) : isBit (bitGet r b) := by
  unfold isBit bitGet
  split <;> simp

/-! ## The accessors in closed form -/

theorem setRegBit_eq (c : CPU) (name : REG) (bit val : int8_t)
    (hb : 0 ≤ bit.val ∧ bit.val ≤ 7) (hv : isBit val) :
    setRegBit c name bit val = some (setRegByte c name (bitSet (c.regs name) bit val)) := by
  unfold isBit at hv
  have h1 : bit.val > -1 ∧ bit.val < 8 := by omega
  unfold setRegBit
  rw [if_pos h1, if_pos hv]
  rfl

theorem getRegBit_eq (c : CPU) (name : REG) (bit : int8_t)
    (hb : 0 ≤ bit.val ∧ bit.val ≤ 7) :
    getRegBit c name bit = some (bitGet (c.regs name) bit) := by
  have h1 : bit.val > -1 ∧ bit.val < 8 := by omega
  unfold getRegBit
  rw [if_pos h1]
  rfl

theorem setRegBit_some (c c' : CPU) (name : REG) (bit val : int8_t)
    (h : setRegBit c name bit val = some c') :
    (0 ≤ bit.val ∧ bit.val ≤ 7) ∧ isBit val
      ∧ c' = setRegByte c name (bitSet (c.regs name) bit val) := by
  unfold setRegBit at h
  split at h
  · split at h
    · rename_i h1 h2
      refine ⟨by omega, h2, ?_⟩
      injection h with h
      exact h.symm
    · simp at h
  · simp at h

/-! ## Flags in closed form -/

theorem flagIdx_range (f : FLAG) :
    0 ≤ (toInt8 f.toInt).val ∧ (toInt8 f.toInt).val ≤ 7 := by
  cases f <;> decide

theorem flagIdx_inj (f g : FLAG) : toInt8 f.toInt = toInt8 g.toInt ↔ f = g := by
  cases f <;> cases g <;> decide

theorem setFlag_eq (c : CPU) (f : FLAG) (v : int8_t)
    (hf : f ≠ FLAG.NOT_USED_FLAG) (hv : isBit v) :
    setFlag c f v = some (c.withFlag f v) := by
  unfold setFlag
  rw [if_pos hf, setRegBit_eq _ _ _ _ (flagIdx_range f) hv]
  rfl

theorem getFlag_eq (c : CPU) (f : FLAG) (hf : f ≠ FLAG.NOT_USED_FLAG) :
    getFlag c f = some (c.flag f) := by
  unfold getFlag
  rw [if_pos hf, getRegBit_eq _ _ _ (flagIdx_range f)]
  rfl

theorem setFlag_some (c c' : CPU) (f : FLAG) (v : int8_t)
    (h : setFlag c f v = some c') :
    f ≠ FLAG.NOT_USED_FLAG ∧ isBit v ∧ c' = c.withFlag f v := by
  unfold setFlag at h
  split at h
  · rename_i hf
    obtain ⟨_, hv, hc⟩ := setRegBit_some _ _ _ _ _ h
    exact ⟨hf, hv, hc⟩
  · simp at h

theorem isBit_flag (c : CPU) (f : FLAG) : isBit (c.flag f) := isBit_bitGet _ _

@[simp] theorem isBit_ite01 (p : Prop) [Decidable p] :
    isBit (toInt8 (if p then 0 else 1)) := by
  unfold isBit; split <;> simp

@[simp] theorem isBit_ite10 (p : Prop) [Decidable p] :
    isBit (toInt8 (if p then 1 else 0)) := by
  unfold isBit; split <;> simp

@[simp] theorem isBit_zero : isBit (toInt8 0) := by unfold isBit; simp

@[simp] theorem isBit_one : isBit (toInt8 1) := by unfold isBit; simp

theorem flag_withFlag (c : CPU) (f g : FLAG) (v : int8_t) (hv : isBit v) :
    (c.withFlag f v).flag g = if g = f then v else c.flag g := by
  unfold CPU.flag CPU.withFlag
  simp only [setRegByte, Function.update_same]
  rw [bitGet_bitSet _ _ _ _ (flagIdx_range f) (flagIdx_range g) hv]
  simp only [flagIdx_inj]

@[simp] theorem flag_setRegByte (c : CPU) (R : REG) (x : int8_t) (g : FLAG)
    (h : R ≠ REG.STATUS) : (setRegByte c R x).flag g = c.flag g := by
  unfold CPU.flag
  simp only [setRegByte, Function.update_noteq (Ne.symm h)]

@[simp] theorem flag_write (c : CPU) (a : uint16_t) (x : int8_t) (g : FLAG) :
    (write c a x).flag g = c.flag g := by
  unfold CPU.flag
  rw [show (write c a x).regs = c.regs from rfl]

@[simp] theorem regs_withFlag (c : CPU) (f : FLAG) (v : int8_t) (R : REG)
    (h : R ≠ REG.STATUS) : (c.withFlag f v).regs R = c.regs R := by
  unfold CPU.withFlag
  simp only [setRegByte, Function.update_noteq h]

@[simp] theorem PC_withFlag (c : CPU) (f : FLAG) (v : int8_t) :
    (c.withFlag f v).PC = c.PC := rfl

@[simp] theorem addressSpace_withFlag (c : CPU) (f : FLAG) (v : int8_t) :
    (c.withFlag f v).addressSpace = c.addressSpace := rfl

theorem setZero_eq (c : CPU) (val : int8_t) :
    setZero c val = some (c.withFlag FLAG.Z (toInt8 (if val.val ≠ 0 then 0 else 1))) :=
  setFlag_eq _ _ _ (by decide) (isBit_ite01 _)

theorem setSign_eq (c : CPU) (val : int8_t) :
    setSign c val
      = some (c.withFlag FLAG.S (toInt8 (if c_and val.val 0x80 ≠ 0 then 1 else 0))) :=
  setFlag_eq _ _ _ (by decide) (isBit_ite10 _)

theorem setCarry_eq (c : CPU) (val : int16_t) :
    setCarry c val = some (c.withFlag FLAG.C (toInt8 (if val.val > 0xFF then 1 else 0))) :=
  setFlag_eq _ _ _ (by decide) (isBit_ite10 _)

theorem setCarryBCD_eq (c : CPU) (val : int16_t) :
    setCarryBCD c val
      = some (c.withFlag FLAG.C (toInt8 (if val.val > 0x99 then 1 else 0))) :=
  setFlag_eq _ _ _ (by decide) (isBit_ite10 _)

theorem setOverflow_eq (c : CPU) (a b val : int8_t) :
    setOverflow c a b val = some (c.withFlag FLAG.V (toInt8
      (if c_and (c_xor a.val b.val) 0x80 = 0 ∧ c_and (c_xor a.val val.val) 0x80 ≠ 0
       then 1 else 0))) :=
  setFlag_eq _ _ _ (by decide) (isBit_ite10 _)

theorem setOverflowSubtract_eq (c : CPU) (a b val : int8_t) :
    setOverflowSubtract c a b val = some (c.withFlag FLAG.V (toInt8
      (if c_and (c_xor a.val b.val) 0x80 ≠ 0 ∧ c_and (c_xor a.val val.val) 0x80 ≠ 0
       then 1 else 0))) :=
  setFlag_eq _ _ _ (by decide) (isBit_ite10 _)

/-! ## `ADC` in closed form -/

theorem ADC_binary_eq (c : CPU) (o : OP_CODE_INFO) (hD : c.flag FLAG.D = toInt8 0) :
    ADC c o =
      (let carry := c.flag FLAG.C
       let accum := c.regs REG.ACCUM
       let sum := toInt16 (c_and 0x00FF carry.val + c_and 0x00FF accum.val
                      + c_and 0x00FF o.operand.val)
       let sumByte := toInt8 (c_and sum.val 0x00FF)
       some (setRegByte
        ((((c.withFlag FLAG.Z (toInt8 (if sumByte.val ≠ 0 then 0 else 1))).withFlag
            FLAG.S (toInt8 (if c_and sumByte.val 0x80 ≠ 0 then 1 else 0))).withFlag
            FLAG.V (toInt8
              (if c_and (c_xor accum.val o.operand.val) 0x80 = 0
                  ∧ c_and (c_xor accum.val sumByte.val) 0x80 ≠ 0 then 1 else 0))).withFlag
            FLAG.C (toInt8 (if sum.val > 0xFF then 1 else 0)))
        REG.ACCUM (toInt8 (c_and sum.val 0xFF)))) := by
  have hd : ((c.withFlag FLAG.Z (toInt8 (if (toInt8 (c_and (toInt16
      (c_and 0x00FF (c.flag FLAG.C).val + c_and 0x00FF (c.regs REG.ACCUM).val
        + c_and 0x00FF o.operand.val)).val 0x00FF)).val ≠ 0 then 0 else 1))).flag
      FLAG.D).val = 0 := by
    rw [flag_withFlag _ _ _ _ (isBit_ite01 _), if_neg (by decide), hD]
    rfl
  simp only [ADC, getFlag_eq _ FLAG.C (by decide), getFlag_eq _ FLAG.D (by decide),
    setZero_eq, setSign_eq, setOverflow_eq, setCarry_eq, getRegByte,
    Option.some_bind, Option.bind_eq_bind, Option.pure_def, bind, pure]
  rw [if_neg (by rw [hd]; simp)]
  rfl

theorem ADC_decimal_eq (c : CPU) (o : OP_CODE_INFO) (hD : c.flag FLAG.D = toInt8 1) :
    ADC c o =
      (let carry := c.flag FLAG.C
       let accum := c.regs REG.ACCUM
       let sum := toInt16 (c_and 0x00FF carry.val + c_and 0x00FF accum.val
                      + c_and 0x00FF o.operand.val)
       let sumByte := toInt8 (c_and sum.val 0x00FF)
       let sum1 := if c_and accum.val 0xF + c_and o.operand.val 0xF + carry.val > 9
                   then toInt16 (sum.val + 6) else sum
       let sum2 := toInt16 (sum1.val + (if sum1.val > 0x99 then 96 else 0))
       some (setRegByte
        ((((c.withFlag FLAG.Z (toInt8 (if sumByte.val ≠ 0 then 0 else 1))).withFlag
            FLAG.S (toInt8 (if c_and sumByte.val 0x80 ≠ 0 then 1 else 0))).withFlag
            FLAG.V (toInt8
              (if c_and (c_xor accum.val o.operand.val) 0x80 = 0
                  ∧ c_and (c_xor accum.val sumByte.val) 0x80 ≠ 0 then 1 else 0))).withFlag
            FLAG.C (toInt8 (if sum2.val > 0x99 then 1 else 0)))
        REG.ACCUM (toInt8 (c_and sum2.val 0xFF)))) := by
  have hd : ((c.withFlag FLAG.Z (toInt8 (if (toInt8 (c_and (toInt16
      (c_and 0x00FF (c.flag FLAG.C).val + c_and 0x00FF (c.regs REG.ACCUM).val
        + c_and 0x00FF o.operand.val)).val 0x00FF)).val ≠ 0 then 0 else 1))).flag
      FLAG.D).val = 1 := by
    rw [flag_withFlag _ _ _ _ (isBit_ite01 _), if_neg (by decide), hD]
    rfl
  simp only [ADC, getFlag_eq _ FLAG.C (by decide), getFlag_eq _ FLAG.D (by decide),
    setZero_eq, setSign_eq, setOverflow_eq, setCarryBCD_eq, getRegByte,
    Option.some_bind, Option.bind_eq_bind, Option.pure_def, bind, pure]
  rw [if_pos (by rw [hd]; simp)]
  rfl

theorem getFlag_some (c : CPU) (f : FLAG) (v : int8_t) (h : getFlag c f = some v) :
    c.flag f = v := by
  unfold getFlag at h
  split at h
  · rename_i hf
    rw [getRegBit_eq _ _ _ (flagIdx_range f)] at h
    injection h
  · simp at h

/-! ## C1: binary `ADC` -/

/-- C1: with the Decimal flag clear and carry-in `cin`, `ADC` completes and leaves
accumulator = (a + m + cin) mod 256, Carry = 1 iff a + m + cin > 255, Zero = 1 iff
(a + m + cin) mod 256 = 0 and Sign = bit 7 of (a + m + cin) mod 256, where `a` and
`m` are the accumulator and the operand read as unsigned bytes. -/
theorem ADC_binary_result (c : CPU) (o : OP_CODE_INFO) (cin : int8_t)
    (hC : getFlag c FLAG.C = some cin) (hD : getFlag c FLAG.D = some (toInt8 0)) :
    ∃ c', ADC c o = some c'
      ∧ u8 (getRegByte c' REG.ACCUM)
          = (u8 (getRegByte c REG.ACCUM) + u8 o.operand + u8 cin) % 256
      ∧ getFlag c' FLAG.C = some (toInt8
          (if u8 (getRegByte c REG.ACCUM) + u8 o.operand + u8 cin > 255 then 1 else 0))
      ∧ getFlag c' FLAG.Z = some (toInt8
          (if (u8 (getRegByte c REG.ACCUM) + u8 o.operand + u8 cin) % 256 = 0
           then 1 else 0))
      ∧ getFlag c' FLAG.S = some (toInt8
          (((u8 (getRegByte c REG.ACCUM) + u8 o.operand + u8 cin) % 256 / 128 : Nat) : Int)) := by
  have hC' := getFlag_some _ _ _ hC
  have hD' := getFlag_some _ _ _ hD
  have hcin : isBit cin := hC' ▸ isBit_flag c FLAG.C
  have ha := (c.regs REG.ACCUM).property
  have hm := o.operand.property
  unfold isBit at hcin
  refine ⟨_, ADC_binary_eq c o hD', ?_, ?_, ?_, ?_⟩
  · simp only [getRegByte, setRegByte, Function.update_same, hC', c_and_255,
      c_and_comm 255, u8, toInt8_val, toInt16_val]
    omega
  · rw [getFlag_eq _ _ (by decide)]
    simp only [flag_setRegByte _ _ _ _ (show REG.ACCUM ≠ REG.STATUS by decide),
      flag_withFlag, isBit_ite10, isBit_ite01, ↓reduceIte, hC', c_and_255,
      c_and_comm 255, getRegByte, u8, reduceCtorEq]
    congr 2
    simp only [toInt16_val]
    split_ifs <;> omega
  · rw [getFlag_eq _ _ (by decide)]
    simp only [flag_setRegByte _ _ _ _ (show REG.ACCUM ≠ REG.STATUS by decide),
      flag_withFlag, isBit_ite10, isBit_ite01, ↓reduceIte, hC', c_and_255,
      c_and_comm 255, getRegByte, u8, reduceCtorEq]
    congr 2
    simp only [toInt16_val, toInt8_val]
    split_ifs <;> omega
  · rw [getFlag_eq _ _ (by decide)]
    simp only [flag_setRegByte _ _ _ _ (show REG.ACCUM ≠ REG.STATUS by decide),
      flag_withFlag, isBit_ite10, isBit_ite01, ↓reduceIte, hC', c_and_255,
      c_and_comm 255, c_and_128, getRegByte, u8, reduceCtorEq]
    congr 2
    simp only [toInt16_val, toInt8_val]
    split_ifs <;> omega

/-- C1 at the input of the spec: `0x50 + 0x50` with carry 0 gives accumulator
`0xA0`, Carry 0, Zero 0 and Sign 1. -/
theorem ADC_binary_result_witness :
    getFlag (cpuWith 0x20 0x50) FLAG.C = some (toInt8 0)
      ∧ getFlag (cpuWith 0x20 0x50) FLAG.D = some (toInt8 0)
      ∧ ∃ c', ADC (cpuWith 0x20 0x50) ⟨toInt8 0x50, 0, MODE.Immediate⟩ = some c'
        ∧ u8 (getRegByte c' REG.ACCUM) = 0xA0
        ∧ getFlag c' FLAG.C = some (toInt8 0)
        ∧ getFlag c' FLAG.Z = some (toInt8 0)
        ∧ getFlag c' FLAG.S = some (toInt8 1) :=
  ⟨by decide, by decide,
    ADC_binary_result (cpuWith 0x20 0x50) ⟨toInt8 0x50, 0, MODE.Immediate⟩ (toInt8 0)
      (by decide) (by decide)⟩

/-! ## C2: the overflow flag of binary `ADC` -/

/-- C2: with the Decimal flag clear and carry-in `cin`, `ADC` completes and sets
Overflow to 1 exactly when the signed sum of accumulator, operand and carry-in
(the two bytes read in two's complement) is outside -128..127. -/
theorem ADC_binary_overflow (c : CPU) (o : OP_CODE_INFO) (cin : int8_t)
    (hC : getFlag c FLAG.C = some cin) (hD : getFlag c FLAG.D = some (toInt8 0)) :
    ∃ c', ADC c o = some c'
      ∧ getFlag c' FLAG.V = some (toInt8
          (if (getRegByte c REG.ACCUM).val + o.operand.val + cin.val < -128
              ∨ (getRegByte c REG.ACCUM).val + o.operand.val + cin.val > 127
           then 1 else 0)) := by
  have hC' := getFlag_some _ _ _ hC
  have hD' := getFlag_some _ _ _ hD
  have hcin : isBit cin := hC' ▸ isBit_flag c FLAG.C
  have ha := (c.regs REG.ACCUM).property
  have hm := o.operand.property
  unfold isBit at hcin
  refine ⟨_, ADC_binary_eq c o hD', ?_⟩
  rw [getFlag_eq _ _ (by decide)]
  simp only [flag_setRegByte _ _ _ _ (show REG.ACCUM ≠ REG.STATUS by decide),
    flag_withFlag, isBit_ite10, isBit_ite01, ↓reduceIte, hC', c_and_255,
    c_and_comm 255, c_and_xor_128, getRegByte, reduceCtorEq]
  congr 2
  simp only [toInt16_val, toInt8_val]
  by_cases ha0 : (c.regs REG.ACCUM).val < 0 <;> by_cases hm0 : o.operand.val < 0 <;>
    rcases hcin with h | h <;> split_ifs <;> omega

/-- C2 at the input of the spec: `0x50 + 0x50` with carry 0 sets Overflow. -/
theorem ADC_binary_overflow_witness :
    getFlag (cpuWith 0x20 0x50) FLAG.C = some (toInt8 0)
      ∧ getFlag (cpuWith 0x20 0x50) FLAG.D = some (toInt8 0)
      ∧ ∃ c', ADC (cpuWith 0x20 0x50) ⟨toInt8 0x50, 0, MODE.Immediate⟩ = some c'
        ∧ getFlag c' FLAG.V = some (toInt8 1) :=
  ⟨by decide, by decide,
    ADC_binary_overflow (cpuWith 0x20 0x50) ⟨toInt8 0x50, 0, MODE.Immediate⟩ (toInt8 0)
      (by decide) (by decide)⟩

/-! ## C3: decimal `ADC` on packed BCD -/

theorem u8_toInt8 (x : Int) : u8 (toInt8 x) = (x % 256).toNat := by
  simp only [u8, toInt8_val]; omega

theorem toInt16_small (x : Int) (h1 : -32768 ≤ x) (h2 : x ≤ 32767) :
    (toInt16 x).val = x := by
  simp only [toInt16_val]; omega

theorem bcd_core : ∀ h, h < 19 → ∀ l, l < 20 →
    ((if l > 9 then 16 * h + l + 6 else 16 * h + l)
        + (if (if l > 9 then 16 * h + l + 6 else 16 * h + l) > 153 then 96 else 0)) % 256
      = bcdEncode ((10 * h + l) % 100)
    ∧ (((if l > 9 then 16 * h + l + 6 else 16 * h + l)
        + (if (if l > 9 then 16 * h + l + 6 else 16 * h + l) > 153 then 96 else 0)) > 153
      ↔ 10 * h + l ≥ 100) := by
  decide

theorem adc_decimal_core (a m cin : int8_t) (ha : validBCD a) (hm : validBCD m)
    (hc : isBit cin) :
    (toInt16 ((if a.val % 16 + m.val % 16 + cin.val > 9
        then toInt16 ((toInt16 (cin.val % 256 + a.val % 256 + m.val % 256)).val + 6)
        else toInt16 (cin.val % 256 + a.val % 256 + m.val % 256)).val
      + (if (if a.val % 16 + m.val % 16 + cin.val > 9
        then toInt16 ((toInt16 (cin.val % 256 + a.val % 256 + m.val % 256)).val + 6)
        else toInt16 (cin.val % 256 + a.val % 256 + m.val % 256)).val > 153
          then 96 else 0))).val % 256
        = ((bcdEncode ((bcdValue a + bcdValue m + u8 cin) % 100) : Nat) : Int)
    ∧ ((toInt16 ((if a.val % 16 + m.val % 16 + cin.val > 9
        then toInt16 ((toInt16 (cin.val % 256 + a.val % 256 + m.val % 256)).val + 6)
        else toInt16 (cin.val % 256 + a.val % 256 + m.val % 256)).val
      + (if (if a.val % 16 + m.val % 16 + cin.val > 9
        then toInt16 ((toInt16 (cin.val % 256 + a.val % 256 + m.val % 256)).val + 6)
        else toInt16 (cin.val % 256 + a.val % 256 + m.val % 256)).val > 153
          then 96 else 0))).val > 153
      ↔ bcdValue a + bcdValue m + u8 cin ≥ 100) := by
  have hap := a.property
  have hmp := m.property
  unfold validBCD at ha hm
  unfold isBit at hc
  have hA : a.val % 256 = ((u8 a : Nat) : Int) := by unfold u8; omega
  have hM : m.val % 256 = ((u8 m : Nat) : Int) := by unfold u8; omega
  have hC : cin.val % 256 = ((u8 cin : Nat) : Int) := by unfold u8; omega
  have hC' : cin.val = ((u8 cin : Nat) : Int) := by unfold u8; omega
  have hA16 : a.val % 16 = ((u8 a % 16 : Nat) : Int) := by unfold u8; omega
  have hM16 : m.val % 16 = ((u8 m % 16 : Nat) : Int) := by unfold u8; omega
  have hAlt := u8_lt a
  have hMlt := u8_lt m
  have hClt : u8 cin < 2 := by unfold u8; omega
  have key := bcd_core (u8 a / 16 + u8 m / 16) (by omega)
    (u8 a % 16 + u8 m % 16 + u8 cin) (by omega)
  have hv : bcdValue a + bcdValue m + u8 cin
      = 10 * (u8 a / 16 + u8 m / 16) + (u8 a % 16 + u8 m % 16 + u8 cin) := by
    unfold bcdValue; omega
  rw [hv]
  rw [hA, hM, hC, hA16, hM16]
  rw [hC'] at *
  generalize bcdEncode ((10 * (u8 a / 16 + u8 m / 16) + (u8 a % 16 + u8 m % 16 + u8 cin)) % 100)
    = enc at key ⊢
  generalize u8 a = A at *
  generalize u8 m = M at *
  generalize u8 cin = C at *
  clear hA hM hC hC' hA16 hM16 hap hmp hc hv
  rw [toInt16_small (↑C + ↑A + ↑M) (by omega) (by omega)]
  obtain ⟨k1, k2⟩ := key
  by_cases hL : A % 16 + M % 16 + C > 9
  · have hL' : ((A % 16 : Nat) : Int) + ((M % 16 : Nat) : Int) + (C : Int) > 9 := by omega
    rw [if_pos hL'] 
    rw [toInt16_small (↑C + ↑A + ↑M + 6) (by omega) (by omega)]
    rw [if_pos hL] at k1 k2
    by_cases hS : 16 * (A / 16 + M / 16) + (A % 16 + M % 16 + C) + 6 > 153
    · have hS' : (C : Int) + ↑A + ↑M + 6 > 153 := by omega
      rw [if_pos hS'] 
      rw [if_pos hS] at k1 k2
      rw [toInt16_small _ (by omega) (by omega)]
      constructor <;> omega
    · have hS' : ¬ ((C : Int) + ↑A + ↑M + 6 > 153) := by omega
      rw [if_neg hS'] 
      rw [if_neg hS] at k1 k2
      rw [toInt16_small _ (by omega) (by omega)]
      constructor <;> omega
  · have hL' : ¬ (((A % 16 : Nat) : Int) + ((M % 16 : Nat) : Int) + (C : Int) > 9) := by omega
    rw [if_neg hL'] 
    rw [toInt16_small (↑C + ↑A + ↑M) (by omega) (by omega)]
    rw [if_neg hL] at k1 k2
    by_cases hS : 16 * (A / 16 + M / 16) + (A % 16 + M % 16 + C) > 153
    · have hS' : (C : Int) + ↑A + ↑M > 153 := by omega
      rw [if_pos hS'] 
      rw [if_pos hS] at k1 k2
      rw [toInt16_small _ (by omega) (by omega)]
      constructor <;> omega
    · have hS' : ¬ ((C : Int) + ↑A + ↑M > 153) := by omega
      rw [if_neg hS'] 
      rw [if_neg hS] at k1 k2
      rw [toInt16_small _ (by omega) (by omega)]
      constructor <;> omega
/-- C3: with the Decimal flag set, a packed-BCD accumulator and operand and carry-in
`cin`, `ADC` completes, leaves in the accumulator the packed-BCD encoding of the
decimal sum modulo 100, and sets Carry to 1 exactly when the decimal sum is at
least 100. -/
theorem ADC_decimal_bcd (c : CPU) (o : OP_CODE_INFO) (cin : int8_t)
    (hC : getFlag c FLAG.C = some cin) (hD : getFlag c FLAG.D = some (toInt8 1))
    (ha : validBCD (getRegByte c REG.ACCUM)) (hm : validBCD o.operand) :
    ∃ c', ADC c o = some c'
      ∧ u8 (getRegByte c' REG.ACCUM)
          = bcdEncode ((bcdValue (getRegByte c REG.ACCUM) + bcdValue o.operand + u8 cin) % 100)
      ∧ getFlag c' FLAG.C = some (toInt8
          (if bcdValue (getRegByte c REG.ACCUM) + bcdValue o.operand + u8 cin ≥ 100
           then 1 else 0)) := by
  have hC' := getFlag_some _ _ _ hC
  have hD' := getFlag_some _ _ _ hD
  have hcin : isBit cin := hC' ▸ isBit_flag c FLAG.C
  obtain ⟨k1, k2⟩ := adc_decimal_core (c.regs REG.ACCUM) o.operand cin ha hm hcin
  refine ⟨_, ADC_decimal_eq c o hD', ?_, ?_⟩
  · simp only [getRegByte, setRegByte, Function.update_same, hC', c_and_255,
      c_and_comm 255, c_and_15, u8_toInt8]
    rw [k1]
    omega
  · rw [getFlag_eq _ _ (by decide)]
    simp only [flag_setRegByte _ _ _ _ (show REG.ACCUM ≠ REG.STATUS by decide),
      flag_withFlag, isBit_ite10, isBit_ite01, ↓reduceIte, hC', c_and_255,
      c_and_comm 255, c_and_15, getRegByte, reduceCtorEq]
    congr 2
    exact if_congr k2 rfl rfl

/-- C3 at the input of the spec: decimal `0x09 + 0x01` with carry 0 gives
accumulator `0x10` and Carry 0. -/
theorem ADC_decimal_bcd_witness :
    getFlag (cpuWith 0x28 0x09) FLAG.C = some (toInt8 0)
      ∧ getFlag (cpuWith 0x28 0x09) FLAG.D = some (toInt8 1)
      ∧ validBCD (getRegByte (cpuWith 0x28 0x09) REG.ACCUM)
      ∧ validBCD (toInt8 0x01)
      ∧ ∃ c', ADC (cpuWith 0x28 0x09) ⟨toInt8 0x01, 0, MODE.Immediate⟩ = some c'
        ∧ u8 (getRegByte c' REG.ACCUM) = 0x10
        ∧ getFlag c' FLAG.C = some (toInt8 0) :=
  ⟨by decide, by decide, by decide, by decide,
    ADC_decimal_bcd (cpuWith 0x28 0x09) ⟨toInt8 0x01, 0, MODE.Immediate⟩ (toInt8 0)
      (by decide) (by decide) (by decide) (by decide)⟩

/-! ## C4: the carry flag of `SBC` -/

/-- C4, evaluated: `SBC` with accumulator `0x00`, operand `0x01` and carry 0 (Decimal
clear) borrows, leaves accumulator `0xFF`, and leaves Carry = 1: the difference is
held in an `int16_t`, so `diff < 0x100` is true of `-1`. -/
theorem SBC_borrow_sets_carry :
    (SBC (cpuWith 0x20 0x00) ⟨toInt8 0x01, 0, MODE.Immediate⟩).map
        (fun c' => (u8 (getRegByte c' REG.ACCUM), getFlag c' FLAG.C))
      = some (0xFF, some (toInt8 1)) := by
  decide

/-! ## C5: status bit 5 -/

theorem bit5_iff (c : CPU) : bit5 c ↔ bitGet (c.regs REG.STATUS) (toInt8 5) = toInt8 1 := by
  unfold bit5
  rw [getRegBit_eq _ _ _ (by decide)]
  exact Option.some_inj

theorem bit5_congr (c c' : CPU) (h : c'.regs REG.STATUS = c.regs REG.STATUS)
    (hc : bit5 c) : bit5 c' := by
  rw [bit5_iff] at *
  rw [h]; exact hc

theorem bit5_withFlag (c : CPU) (f : FLAG) (v : int8_t) (hf : f ≠ FLAG.NOT_USED_FLAG)
    (hv : isBit v) (hc : bit5 c) : bit5 (c.withFlag f v) := by
  rw [bit5_iff] at *
  have h := flag_withFlag c f FLAG.NOT_USED_FLAG v hv
  unfold CPU.flag at h
  rw [if_neg (Ne.symm hf)] at h
  exact h.trans hc

theorem bit5_setRegByte (c : CPU) (R : REG) (x : int8_t) (h : R ≠ REG.STATUS)
    (hc : bit5 c) : bit5 (setRegByte c R x) :=
  bit5_congr c _ (by simp only [setRegByte, Function.update_noteq (Ne.symm h)]) hc

theorem bit5_write (c : CPU) (a : uint16_t) (x : int8_t) (hc : bit5 c) :
    bit5 (write c a x) :=
  bit5_congr c _ rfl hc

theorem bit5_setPC (c : CPU) (pc : uint16_t) (hc : bit5 c) :
    bit5 { c with PC := pc } :=
  bit5_congr c _ rfl hc

theorem bit5_fresh (c : CPU) :
    PresBy bit5 (setRegBit c REG.STATUS (toInt8 5) (toInt8 1)) := by
  intro c' h
  rw [setRegBit_eq _ _ _ _ (by decide) isBit_one] at h
  injection h with h
  subst h
  rw [bit5_iff]
  simp only [setRegByte, Function.update_same]
  rw [bitGet_bitSet _ _ _ _ (by decide) (by decide) isBit_one, if_pos rfl]

theorem PresBy_some {α : Type} (P : α → Prop) (a : α) (h : P a) : PresBy P (some a) := by
  intro b hb
  injection hb with hb
  exact hb ▸ h

theorem PresBy_pure {α : Type} (P : α → Prop) (a : α) (h : P a) :
    PresBy P (pure a : Option α) :=
  PresBy_some P a h

theorem PresBy_bind {α β : Type} (Q : α → Prop) (P : β → Prop) (x : Option α)
    (k : α → Option β) (hx : PresBy Q x) (hk : ∀ a, Q a → PresBy P (k a)) :
    PresBy P (x >>= k) := by
  intro b hb
  cases x with
  | none => simp at hb
  | some a => exact hk a (hx a rfl) b hb

theorem PresBy_bindC {β : Type} (P : β → Prop) (x : Option CPU) (k : CPU → Option β)
    (hx : PresBy bit5 x) (hk : ∀ c, bit5 c → PresBy P (k c)) : PresBy P (x >>= k) :=
  PresBy_bind bit5 P x k hx hk

theorem PresBy_bindV {β : Type} (P : β → Prop) (x : Option int8_t)
    (k : int8_t → Option β) (hk : ∀ v, PresBy P (k v)) : PresBy P (x >>= k) :=
  PresBy_bind (fun _ => True) P x k (fun _ _ => trivial) (fun a _ => hk a)

theorem PresBy_bindP {β : Type} (P : β → Prop) (x : Option (CPU × int16_t))
    (k : CPU × int16_t → Option β) (hx : PresBy (fun p : CPU × int16_t => bit5 p.1) x)
    (hk : ∀ p : CPU × int16_t, bit5 p.1 → PresBy P (k p)) : PresBy P (x >>= k) :=
  PresBy_bind (fun p : CPU × int16_t => bit5 p.1) P x k hx hk

theorem PresBy_ite {α : Type} (P : α → Prop) (p : Prop) [Decidable p] (x y : Option α)
    (hx : PresBy P x) (hy : PresBy P y) : PresBy P (if p then x else y) := by
  split
  · exact hx
  · exact hy

theorem PresBy_setFlag (c : CPU) (f : FLAG) (v : int8_t) (hc : bit5 c) :
    PresBy bit5 (setFlag c f v) := by
  intro c' h
  obtain ⟨hf, hv, rfl⟩ := setFlag_some _ _ _ _ h
  exact bit5_withFlag c f v hf hv hc

theorem PresBy_setZero (c : CPU) (v : int8_t) (hc : bit5 c) :
    PresBy bit5 (setZero c v) := PresBy_setFlag _ _ _ hc

theorem PresBy_setSign (c : CPU) (v : int8_t) (hc : bit5 c) :
    PresBy bit5 (setSign c v) := PresBy_setFlag _ _ _ hc

theorem PresBy_setCarry (c : CPU) (v : int16_t) (hc : bit5 c) :
    PresBy bit5 (setCarry c v) := PresBy_setFlag _ _ _ hc

theorem PresBy_setCarryBCD (c : CPU) (v : int16_t) (hc : bit5 c) :
    PresBy bit5 (setCarryBCD c v) := PresBy_setFlag _ _ _ hc

theorem PresBy_setOverflow (c : CPU) (a b v : int8_t) (hc : bit5 c) :
    PresBy bit5 (setOverflow c a b v) := PresBy_setFlag _ _ _ hc

theorem PresBy_setOverflowSubtract (c : CPU) (a b v : int8_t) (hc : bit5 c) :
    PresBy bit5 (setOverflowSubtract c a b v) := PresBy_setFlag _ _ _ hc

theorem ADC_bit5 (c : CPU) (o : OP_CODE_INFO) (hc : bit5 c) : PresBy bit5 (ADC c o) := by
  unfold ADC
  refine PresBy_bindV _ _ _ (fun carry => ?_)
  refine PresBy_bindC _ _ _ (PresBy_setZero _ _ hc) (fun c1 h1 => ?_)
  refine PresBy_bindV _ _ _ (fun d => ?_)
  refine PresBy_bindP _ _ _ ?_ (fun p hp => ?_)
  · refine PresBy_ite _ _ _ _ ?_ ?_
    · refine PresBy_bindC _ _ _ (PresBy_setSign _ _ h1) (fun c2 h2 => ?_)
      refine PresBy_bindC _ _ _ (PresBy_setOverflow _ _ _ _ h2) (fun c3 h3 => ?_)
      refine PresBy_bindC _ _ _ (PresBy_setCarryBCD _ _ h3) (fun c4 h4 => ?_)
      exact PresBy_pure _ _ h4
    · refine PresBy_bindC _ _ _ (PresBy_setSign _ _ h1) (fun c2 h2 => ?_)
      refine PresBy_bindC _ _ _ (PresBy_setOverflow _ _ _ _ h2) (fun c3 h3 => ?_)
      refine PresBy_bindC _ _ _ (PresBy_setCarry _ _ h3) (fun c4 h4 => ?_)
      exact PresBy_pure _ _ h4
  · exact PresBy_pure _ _ (bit5_setRegByte _ _ _ (by decide) hp)

theorem AND_bit5 (c : CPU) (o : OP_CODE_INFO) (hc : bit5 c) : PresBy bit5 (AND c o) := by
  unfold AND
  refine PresBy_bindC _ _ _ (PresBy_setSign _ _ hc) (fun c1 h1 => ?_)
  refine PresBy_bindC _ _ _ (PresBy_setZero _ _ h1) (fun c2 h2 => ?_)
  exact PresBy_pure _ _ (bit5_setRegByte _ _ _ (by decide) h2)

theorem ASL_bit5 (c : CPU) (o : OP_CODE_INFO) (hc : bit5 c) : PresBy bit5 (ASL c o) := by
  unfold ASL
  refine PresBy_bindC _ _ _ (PresBy_setCarry _ _ hc) (fun c1 h1 => ?_)
  refine PresBy_bindC _ _ _ (PresBy_setSign _ _ h1) (fun c2 h2 => ?_)
  refine PresBy_bindC _ _ _ (PresBy_setZero _ _ h2) (fun c3 h3 => ?_)
  exact PresBy_ite _ _ _ _ (PresBy_pure _ _ (bit5_setRegByte _ _ _ (by decide) h3))
    (PresBy_pure _ _ (bit5_write _ _ _ h3))

theorem BCC_bit5 (c : CPU) (o : OP_CODE_INFO) (hc : bit5 c) : PresBy bit5 (BCC c o) := by
  unfold BCC
  refine PresBy_bindV _ _ _ (fun f => ?_)
  exact PresBy_ite _ _ _ _ (PresBy_pure _ _ (bit5_setPC _ _ hc)) (PresBy_pure _ _ hc)

theorem BCS_bit5 (c : CPU) (o : OP_CODE_INFO) (hc : bit5 c) : PresBy bit5 (BCS c o) := by
  unfold BCS
  refine PresBy_bindV _ _ _ (fun f => ?_)
  exact PresBy_ite _ _ _ _ (PresBy_pure _ _ (bit5_setPC _ _ hc)) (PresBy_pure _ _ hc)

theorem BEQ_bit5 (c : CPU) (o : OP_CODE_INFO) (hc : bit5 c) : PresBy bit5 (BEQ c o) := by
  unfold BEQ
  refine PresBy_bindV _ _ _ (fun f => ?_)
  exact PresBy_ite _ _ _ _ (PresBy_pure _ _ (bit5_setPC _ _ hc)) (PresBy_pure _ _ hc)

theorem BIT_bit5 (c : CPU) (o : OP_CODE_INFO) (hc : bit5 c) : PresBy bit5 (BIT c o) := by
  unfold BIT
  refine PresBy_bindC _ _ _ (PresBy_setFlag _ _ _ hc) (fun c1 h1 => ?_)
  refine PresBy_bindC _ _ _ (PresBy_setFlag _ _ _ h1) (fun c2 h2 => ?_)
  exact PresBy_setFlag _ _ _ h2

theorem BMI_bit5 (c : CPU) (o : OP_CODE_INFO) (hc : bit5 c) : PresBy bit5 (BMI c o) := by
  unfold BMI
  refine PresBy_bindV _ _ _ (fun f => ?_)
  exact PresBy_ite _ _ _ _ (PresBy_pure _ _ (bit5_setPC _ _ hc)) (PresBy_pure _ _ hc)

theorem BNE_bit5 (c : CPU) (o : OP_CODE_INFO) (hc : bit5 c) : PresBy bit5 (BNE c o) := by
  unfold BNE
  refine PresBy_bindV _ _ _ (fun f => ?_)
  exact PresBy_ite _ _ _ _ (PresBy_pure _ _ (bit5_setPC _ _ hc)) (PresBy_pure _ _ hc)

theorem BPL_bit5 (c : CPU) (o : OP_CODE_INFO) (hc : bit5 c) : PresBy bit5 (BPL c o) := by
  unfold BPL
  refine PresBy_bindV _ _ _ (fun f => ?_)
  exact PresBy_ite _ _ _ _ (PresBy_pure _ _ (bit5_setPC _ _ hc)) (PresBy_pure _ _ hc)

theorem BRK_bit5 (c : CPU) (o : OP_CODE_INFO) (hc : bit5 c) : PresBy bit5 (BRK c o) := by
  unfold BRK
  refine PresBy_bindC _ _ _ (PresBy_setFlag _ _ _ (bit5_setPC _ _ hc)) (fun c1 h1 => ?_)
  exact PresBy_setFlag _ _ _ h1

theorem BVC_bit5 (c : CPU) (o : OP_CODE_INFO) (hc : bit5 c) : PresBy bit5 (BVC c o) := by
  unfold BVC
  refine PresBy_bindV _ _ _ (fun f => ?_)
  exact PresBy_ite _ _ _ _ (PresBy_pure _ _ (bit5_setPC _ _ hc)) (PresBy_pure _ _ hc)

theorem BVS_bit5 (c : CPU) (o : OP_CODE_INFO) (hc : bit5 c) : PresBy bit5 (BVS c o) := by
  unfold BVS
  refine PresBy_bindV _ _ _ (fun f => ?_)
  exact PresBy_ite _ _ _ _ (PresBy_pure _ _ (bit5_setPC _ _ hc)) (PresBy_pure _ _ hc)

theorem CLC_bit5 (c : CPU) (o : OP_CODE_INFO) (hc : bit5 c) : PresBy bit5 (CLC c o) :=
  PresBy_setFlag _ _ _ hc

theorem CLD_bit5 (c : CPU) (o : OP_CODE_INFO) (hc : bit5 c) : PresBy bit5 (CLD c o) :=
  PresBy_setFlag _ _ _ hc

theorem CLI_bit5 (c : CPU) (o : OP_CODE_INFO) (hc : bit5 c) : PresBy bit5 (CLI c o) :=
  PresBy_setFlag _ _ _ hc

theorem CLV_bit5 (c : CPU) (o : OP_CODE_INFO) (hc : bit5 c) : PresBy bit5 (CLV c o) :=
  PresBy_setFlag _ _ _ hc

theorem CMP_bit5 (c : CPU) (o : OP_CODE_INFO) (hc : bit5 c) : PresBy bit5 (CMP c o) := by
  unfold CMP
  refine PresBy_bindC _ _ _ (PresBy_setFlag _ _ _ hc) (fun c1 h1 => ?_)
  refine PresBy_bindC _ _ _ (PresBy_setFlag _ _ _ h1) (fun c2 h2 => ?_)
  exact PresBy_setFlag _ _ _ h2

theorem CPX_bit5 (c : CPU) (o : OP_CODE_INFO) (hc : bit5 c) : PresBy bit5 (CPX c o) := by
  unfold CPX
  refine PresBy_bindC _ _ _ (PresBy_setFlag _ _ _ hc) (fun c1 h1 => ?_)
  refine PresBy_bindC _ _ _ (PresBy_setFlag _ _ _ h1) (fun c2 h2 => ?_)
  exact PresBy_setFlag _ _ _ h2

theorem CPY_bit5 (c : CPU) (o : OP_CODE_INFO) (hc : bit5 c) : PresBy bit5 (CPY c o) := by
  unfold CPY
  refine PresBy_bindC _ _ _ (PresBy_setFlag _ _ _ hc) (fun c1 h1 => ?_)
  refine PresBy_bindC _ _ _ (PresBy_setFlag _ _ _ h1) (fun c2 h2 => ?_)
  exact PresBy_setFlag _ _ _ h2

theorem JMP_bit5 (c : CPU) (o : OP_CODE_INFO) (hc : bit5 c) : PresBy bit5 (JMP c o) :=
  PresBy_some _ _ (bit5_setPC _ _ hc)

theorem JSR_bit5 (c : CPU) (o : OP_CODE_INFO) (hc : bit5 c) : PresBy bit5 (JSR c o) :=
  PresBy_some _ _ (bit5_congr c _ rfl hc)

theorem LDA_bit5 (c : CPU) (o : OP_CODE_INFO) (hc : bit5 c) : PresBy bit5 (LDA c o) := by
  unfold LDA
  refine PresBy_bindC _ _ _ (PresBy_setSign _ _ hc) (fun c1 h1 => ?_)
  refine PresBy_bindC _ _ _ (PresBy_setZero _ _ h1) (fun c2 h2 => ?_)
  exact PresBy_pure _ _ (bit5_setRegByte _ _ _ (by decide) h2)

theorem LDX_bit5 (c : CPU) (o : OP_CODE_INFO) (hc : bit5 c) : PresBy bit5 (LDX c o) := by
  unfold LDX
  refine PresBy_bindC _ _ _ (PresBy_setSign _ _ hc) (fun c1 h1 => ?_)
  refine PresBy_bindC _ _ _ (PresBy_setZero _ _ h1) (fun c2 h2 => ?_)
  exact PresBy_pure _ _ (bit5_setRegByte _ _ _ (by decide) h2)

theorem LDY_bit5 (c : CPU) (o : OP_CODE_INFO) (hc : bit5 c) : PresBy bit5 (LDY c o) := by
  unfold LDY
  refine PresBy_bindC _ _ _ (PresBy_setSign _ _ hc) (fun c1 h1 => ?_)
  refine PresBy_bindC _ _ _ (PresBy_setZero _ _ h1) (fun c2 h2 => ?_)
  exact PresBy_pure _ _ (bit5_setRegByte _ _ _ (by decide) h2)

theorem LSR_bit5 (c : CPU) (o : OP_CODE_INFO) (hc : bit5 c) : PresBy bit5 (LSR c o) := by
  unfold LSR
  refine PresBy_bindC _ _ _ (PresBy_setFlag _ _ _ hc) (fun c1 h1 => ?_)
  refine PresBy_bindC _ _ _ (PresBy_setSign _ _ h1) (fun c2 h2 => ?_)
  refine PresBy_bindC _ _ _ (PresBy_setZero _ _ h2) (fun c3 h3 => ?_)
  exact PresBy_ite _ _ _ _ (PresBy_pure _ _ (bit5_setRegByte _ _ _ (by decide) h3))
    (PresBy_pure _ _ (bit5_write _ _ _ h3))

theorem NOP_bit5 (c : CPU) (o : OP_CODE_INFO) (hc : bit5 c) : PresBy bit5 (NOP c o) :=
  PresBy_some _ _ hc

theorem ORA_bit5 (c : CPU) (o : OP_CODE_INFO) (hc : bit5 c) : PresBy bit5 (ORA c o) := by
  unfold ORA
  refine PresBy_bindC _ _ _ (PresBy_setFlag _ _ _ hc) (fun c1 h1 => ?_)
  refine PresBy_bindC _ _ _ (PresBy_setFlag _ _ _ h1) (fun c2 h2 => ?_)
  exact PresBy_pure _ _ (bit5_setRegByte _ _ _ (by decide) h2)

theorem PHA_bit5 (c : CPU) (o : OP_CODE_INFO) (hc : bit5 c) : PresBy bit5 (PHA c o) :=
  PresBy_some _ _ hc

theorem PHP_bit5 (c : CPU) (o : OP_CODE_INFO) (hc : bit5 c) : PresBy bit5 (PHP c o) :=
  PresBy_some _ _ hc

theorem PLA_bit5 (c : CPU) (o : OP_CODE_INFO) (hc : bit5 c) : PresBy bit5 (PLA c o) :=
  PresBy_some _ _ hc

theorem PLP_bit5 (c : CPU) (o : OP_CODE_INFO) (hc : bit5 c) : PresBy bit5 (PLP c o) :=
  PresBy_some _ _ hc

theorem SBC_bit5 (c : CPU) (o : OP_CODE_INFO) (hc : bit5 c) : PresBy bit5 (SBC c o) := by
  unfold SBC
  refine PresBy_bindV _ _ _ (fun carry => ?_)
  refine PresBy_bindC _ _ _ (PresBy_setSign _ _ hc) (fun c1 h1 => ?_)
  refine PresBy_bindC _ _ _ (PresBy_setZero _ _ h1) (fun c2 h2 => ?_)
  refine PresBy_bindC _ _ _ (PresBy_setOverflowSubtract _ _ _ _ h2) (fun c3 h3 => ?_)
  refine PresBy_bindV _ _ _ (fun d => ?_)
  refine PresBy_bindC _ _ _ (PresBy_setFlag _ _ _ h3) (fun c4 h4 => ?_)
  exact PresBy_pure _ _ (bit5_setRegByte _ _ _ (by decide) h4)

theorem SEC_bit5 (c : CPU) (o : OP_CODE_INFO) (hc : bit5 c) : PresBy bit5 (SEC c o) :=
  PresBy_setFlag _ _ _ hc

theorem STA_bit5 (c : CPU) (o : OP_CODE_INFO) (hc : bit5 c) : PresBy bit5 (STA c o) :=
  PresBy_some _ _ (bit5_write _ _ _ hc)

theorem STX_bit5 (c : CPU) (o : OP_CODE_INFO) (hc : bit5 c) : PresBy bit5 (STX c o) :=
  PresBy_some _ _ (bit5_write _ _ _ hc)

theorem TAY_bit5 (c : CPU) (o : OP_CODE_INFO) (hc : bit5 c) : PresBy bit5 (TAY c o) :=
  PresBy_some _ _ (bit5_setRegByte _ _ _ (by decide) hc)

theorem TYA_bit5 (c : CPU) (o : OP_CODE_INFO) (hc : bit5 c) : PresBy bit5 (TYA c o) :=
  PresBy_some _ _ (bit5_setRegByte _ _ _ (by decide) hc)

theorem handlers_bit5 (h : CPU → OP_CODE_INFO → Option CPU) (hmem : h ∈ handlers)
    (c : CPU) (o : OP_CODE_INFO) (hc : bit5 c) : PresBy bit5 (h c o) := by
  simp only [handlers, List.mem_cons, List.mem_singleton, List.not_mem_nil, or_false] at hmem
  rcases hmem with rfl | rfl | rfl | rfl | rfl | rfl | rfl | rfl | rfl | rfl | rfl | rfl
    | rfl | rfl | rfl | rfl | rfl | rfl | rfl | rfl | rfl | rfl | rfl | rfl | rfl | rfl
    | rfl | rfl | rfl | rfl | rfl | rfl | rfl | rfl | rfl | rfl | rfl | rfl
  · exact ADC_bit5 c o hc
  · exact AND_bit5 c o hc
  · exact ASL_bit5 c o hc
  · exact BCC_bit5 c o hc
  · exact BCS_bit5 c o hc
  · exact BEQ_bit5 c o hc
  · exact BIT_bit5 c o hc
  · exact BMI_bit5 c o hc
  · exact BNE_bit5 c o hc
  · exact BPL_bit5 c o hc
  · exact BRK_bit5 c o hc
  · exact BVC_bit5 c o hc
  · exact BVS_bit5 c o hc
  · exact CLC_bit5 c o hc
  · exact CLD_bit5 c o hc
  · exact CLI_bit5 c o hc
  · exact CLV_bit5 c o hc
  · exact CMP_bit5 c o hc
  · exact CPX_bit5 c o hc
  · exact CPY_bit5 c o hc
  · exact JMP_bit5 c o hc
  · exact JSR_bit5 c o hc
  · exact LDA_bit5 c o hc
  · exact LDX_bit5 c o hc
  · exact LDY_bit5 c o hc
  · exact LSR_bit5 c o hc
  · exact NOP_bit5 c o hc
  · exact ORA_bit5 c o hc
  · exact PHA_bit5 c o hc
  · exact PHP_bit5 c o hc
  · exact PLA_bit5 c o hc
  · exact PLP_bit5 c o hc
  · exact SBC_bit5 c o hc
  · exact SEC_bit5 c o hc
  · exact STA_bit5 c o hc
  · exact STX_bit5 c o hc
  · exact TAY_bit5 c o hc
  · exact TYA_bit5 c o hc

theorem getCPU_eq : getCPU = some initCPU := by
  unfold getCPU
  rw [setRegBit_eq _ _ _ _ (by decide) isBit_one]
  rfl

/-- C5: bit 5 of the status register reads as 1 in the state that `getCPU` returns,
in the state that `resetCPU` leaves, and in every state reached from those by
`setFlag` calls that pass their assertions and by opcode implementations that run
to completion. -/
theorem status_bit5 (c : CPU) (h : Reachable c) :
    getRegBit c REG.STATUS (toInt8 5) = some (toInt8 1) := by
  induction h with
  | init c h => exact bit5_fresh _ c h
  | reset c0 c h => exact bit5_fresh _ c h
  | flag c c' f v _ h ih => exact PresBy_setFlag c f v ih c' h
  | handler c c' h o _ hmem hrun ih => exact handlers_bit5 h hmem c o ih c' hrun

/-- C5 at a concrete state: the fresh CPU after `SEC`. -/
theorem status_bit5_witness :
    Reachable (initCPU.withFlag FLAG.C (toInt8 1))
      ∧ getRegBit (initCPU.withFlag FLAG.C (toInt8 1)) REG.STATUS (toInt8 5)
          = some (toInt8 1) :=
  ⟨Reachable.handler initCPU _ SEC ⟨toInt8 0, 0, MODE.Implied⟩
      (Reachable.init _ getCPU_eq) (by simp [handlers])
      (setFlag_eq _ _ _ (by decide) isBit_one),
   status_bit5 _ (Reachable.handler initCPU _ SEC ⟨toInt8 0, 0, MODE.Implied⟩
      (Reachable.init _ getCPU_eq) (by simp [handlers])
      (setFlag_eq _ _ _ (by decide) isBit_one))⟩

/-! ## C6: one bit of a register -/

/-- C6: with a bit index `b` in 0..7 and a value `v` in {0,1}, `setRegBit(R, b, v)`
succeeds; afterwards `getRegBit(R, b)` returns `v`, `getRegBit(R, b')` returns what
it returned before for every other bit index `b'` in 0..7, and the other registers,
the PC and the memory are unchanged. -/
theorem setRegBit_getRegBit (c : CPU) (R : REG) (b v : int8_t)
    (hb : 0 ≤ b.val ∧ b.val ≤ 7) (hv : v.val = 0 ∨ v.val = 1) :
    ∃ c', setRegBit c R b v = some c'
      ∧ getRegBit c' R b = some v
      ∧ (∀ b' : int8_t, 0 ≤ b'.val ∧ b'.val ≤ 7 → b' ≠ b →
          getRegBit c' R b' = getRegBit c R b')
      ∧ (∀ R', R' ≠ R → getRegByte c' R' = getRegByte c R')
      ∧ c'.PC = c.PC
      ∧ c'.addressSpace = c.addressSpace := by
  refine ⟨_, setRegBit_eq c R b v hb hv, ?_, ?_, ?_, rfl, rfl⟩
  · rw [getRegBit_eq _ _ _ hb]
    simp only [setRegByte, Function.update_same]
    rw [bitGet_bitSet _ _ _ _ hb hb hv, if_pos rfl]
  · intro b' hb' hne
    rw [getRegBit_eq _ _ _ hb', getRegBit_eq _ _ _ hb']
    simp only [setRegByte, Function.update_same]
    rw [bitGet_bitSet _ _ _ _ hb hb' hv, if_neg hne]
  · intro R' hne
    simp only [getRegByte, setRegByte, Function.update_noteq hne]

/-- C6 at a concrete input: bit 7 of the accumulator `0x01` set to 1. -/
theorem setRegBit_getRegBit_witness :
    ∃ c', setRegBit (cpuWith 0x20 0x01) REG.ACCUM (toInt8 7) (toInt8 1) = some c'
      ∧ getRegBit c' REG.ACCUM (toInt8 7) = some (toInt8 1)
      ∧ (∀ b' : int8_t, 0 ≤ b'.val ∧ b'.val ≤ 7 → b' ≠ toInt8 7 →
          getRegBit c' REG.ACCUM b' = getRegBit (cpuWith 0x20 0x01) REG.ACCUM b')
      ∧ (∀ R', R' ≠ REG.ACCUM → getRegByte c' R' = getRegByte (cpuWith 0x20 0x01) R')
      ∧ c'.PC = (cpuWith 0x20 0x01).PC
      ∧ c'.addressSpace = (cpuWith 0x20 0x01).addressSpace :=
  setRegBit_getRegBit (cpuWith 0x20 0x01) REG.ACCUM (toInt8 7) (toInt8 1)
    (by decide) (by decide)

/-! ## C7: handlers that hit an assertion -/

/-- C7, evaluated: `CMP` with accumulator `0x40` and effective address 0 (status
`0x20`, bit 5 set) does not run to completion: it passes `src & 0x40 = 64` to
`setFlag`, whose value must be 0 or 1. -/
theorem CMP_aborts :
    getRegBit (cpuWith 0x20 0x40) REG.STATUS (toInt8 5) = some (toInt8 1)
      ∧ CMP (cpuWith 0x20 0x40) ⟨toInt8 0, 0, MODE.Immediate⟩ = none
      ∧ setFlag (cpuWith 0x20 0x40) FLAG.S (toInt8 (c_and 0x40 0x40)) = none :=
  ⟨by decide, Option.isNone_iff_eq_none.mp (by decide),
    Option.isNone_iff_eq_none.mp (by decide)⟩

/-! ## C8: Sign and Overflow of decimal `ADC` -/

/-- C8, evaluated: decimal `ADC` with accumulator `0x79`, operand `0x00` and carry 1.
The low nibbles add to 10, so the once-adjusted sum is `0x7A + 6 = 0x80`, whose bit 7
is 1; `ADC` leaves Sign = 0 and Overflow = 0, the flags of the unadjusted byte
`0x7A`, and accumulator `0x80`. -/
theorem ADC_decimal_flags_unadjusted :
    (ADC (cpuWith 0x29 0x79) ⟨toInt8 0x00, 0, MODE.Immediate⟩).map
        (fun c' => (getFlag c' FLAG.S, getFlag c' FLAG.V, u8 (getRegByte c' REG.ACCUM)))
      = some (some (toInt8 0), some (toInt8 0), 0x80)
    ∧ (0x79 % 16 + 0x00 % 16 + 1 > 9 ∧ (0x79 + 0x00 + 1 + 6) % 256 / 128 = 1) := by
  decide

/-! ## C9: `BIT` -/

/-- C9, evaluated: `BIT` with operand `0x40` does not complete (it passes
`src & 0x40 = 64` to `setFlag`), and `BIT` with operand `0x01` completes with
Sign = 1 although bit 7 of the operand is 0 (it passes `src` itself as the value of
Sign). -/
theorem BIT_aborts_or_copies_bit0 :
    BIT (cpuWith 0x20 0x00) ⟨toInt8 0x40, 0, MODE.Immediate⟩ = none
      ∧ (BIT (cpuWith 0x20 0x00) ⟨toInt8 0x01, 0, MODE.Immediate⟩).map
          (fun c' => getFlag c' FLAG.S) = some (some (toInt8 1)) :=
  ⟨Option.isNone_iff_eq_none.mp (by decide), by decide⟩

/-! ## C10: `CMP`, `CPX`, `CPY` -/

/-- C10, evaluated: `CMP` with accumulator 0 and effective address 0 has difference
0 and completes with Zero = 0; with accumulator 1 it has difference 1 and completes
with Zero = 1; with accumulator `0x80` (difference `0x80`) it does not complete.
`CPX` and `CPY` on the same register value behave the same. -/
theorem compare_zero_flag_inverted :
    (CMP (cpuWith 0x20 0x00) ⟨toInt8 0, 0, MODE.Immediate⟩).map
        (fun c' => getFlag c' FLAG.Z) = some (some (toInt8 0))
      ∧ (CMP (cpuWith 0x20 0x01) ⟨toInt8 0, 0, MODE.Immediate⟩).map
        (fun c' => getFlag c' FLAG.Z) = some (some (toInt8 1))
      ∧ CMP (cpuWith 0x20 0x80) ⟨toInt8 0, 0, MODE.Immediate⟩ = none
      ∧ (CPX (cpuWith 0x20 0x00) ⟨toInt8 0, 0, MODE.Immediate⟩).map
        (fun c' => getFlag c' FLAG.Z) = some (some (toInt8 0))
      ∧ (CPY (cpuWith 0x20 0x00) ⟨toInt8 0, 0, MODE.Immediate⟩).map
        (fun c' => getFlag c' FLAG.Z) = some (some (toInt8 0)) :=
  ⟨by decide, by decide, Option.isNone_iff_eq_none.mp (by decide), by decide, by decide⟩

/-! ## C11: `AND` and `ORA` -/

theorem and_mod_256 (a b : Nat) : (a &&& b) % 256 = (a % 256) &&& (b % 256) := by
  apply Nat.eq_of_testBit_eq
  intro i
  have h : (256 : Nat) = 2 ^ 8 := rfl
  rw [h]
  simp only [Nat.testBit_mod_two_pow, Nat.testBit_and]
  cases decide (i < 8) <;> simp

theorem u8_c_and (a m : int8_t) : u8 (toInt8 (c_and a.val m.val)) = u8 a &&& u8 m := by
  have ha := a.property
  have hm := m.property
  have e1 : u8 a = toU32 a.val % 256 := by unfold u8 toU32; omega
  have e2 : u8 m = toU32 m.val % 256 := by unfold u8 toU32; omega
  rw [u8_toInt8, e1, e2, ← and_mod_256]
  have hlt : toU32 a.val &&& toU32 m.val < 2 ^ 32 :=
    Nat.lt_of_le_of_lt Nat.and_le_left (toU32_lt a.val)
  unfold c_and ofU32
  generalize toU32 a.val &&& toU32 m.val = n at hlt ⊢
  split <;> omega

theorem getRegByte_setRegByte (c : CPU) (R : REG) (x : int8_t) :
    getRegByte (setRegByte c R x) R = x := by
  simp only [getRegByte, setRegByte, Function.update_same]

theorem AND_eq (c : CPU) (o : OP_CODE_INFO) :
    AND c o = some (setRegByte
      ((c.withFlag FLAG.S
          (toInt8 (if c_and (toInt8 (c_and (c.regs REG.ACCUM).val o.operand.val)).val 0x80 ≠ 0
            then 1 else 0))).withFlag
        FLAG.Z (toInt8 (if (toInt8 (c_and (c.regs REG.ACCUM).val o.operand.val)).val ≠ 0
          then 0 else 1)))
      REG.ACCUM (toInt8 (c_and (c.regs REG.ACCUM).val o.operand.val))) := by
  simp only [AND, setSign_eq, setZero_eq, getRegByte, Option.some_bind,
    Option.bind_eq_bind, Option.pure_def, bind, pure]

/-- `AND` completes and leaves accumulator = a AND m, Sign = bit 7 and Zero = (the
new accumulator is 0), with the other six status bits, the other registers, the PC
and the memory unchanged. -/
theorem AND_result (c : CPU) (o : OP_CODE_INFO) :
    ∃ c', AND c o = some c'
      ∧ u8 (getRegByte c' REG.ACCUM) = u8 (getRegByte c REG.ACCUM) &&& u8 o.operand
      ∧ getFlag c' FLAG.S = some (toInt8 ((u8 (getRegByte c' REG.ACCUM) / 128 : Nat) : Int))
      ∧ getFlag c' FLAG.Z = some (toInt8 (if u8 (getRegByte c' REG.ACCUM) = 0 then 1 else 0))
      ∧ (∀ b : int8_t, 0 ≤ b.val ∧ b.val ≤ 7 → b ≠ toInt8 1 → b ≠ toInt8 7 →
          getRegBit c' REG.STATUS b = getRegBit c REG.STATUS b)
      ∧ (∀ R', R' ≠ REG.ACCUM → R' ≠ REG.STATUS → getRegByte c' R' = getRegByte c R')
      ∧ c'.PC = c.PC ∧ c'.addressSpace = c.addressSpace := by
  refine ⟨_, AND_eq c o, ?_, ?_, ?_, ?_, ?_, rfl, rfl⟩
  · rw [getRegByte_setRegByte]
    exact u8_c_and _ _
  · rw [getFlag_eq _ _ (by decide)]
    simp only [getRegByte_setRegByte,
      flag_setRegByte _ _ _ _ (show REG.ACCUM ≠ REG.STATUS by decide),
      flag_withFlag, isBit_ite10, isBit_ite01, ↓reduceIte, reduceCtorEq, c_and_128, u8]
    generalize toInt8 (c_and (c.regs REG.ACCUM).val o.operand.val) = r
    have hr := r.property
    congr 2
    split_ifs <;> omega
  · rw [getFlag_eq _ _ (by decide)]
    simp only [getRegByte_setRegByte,
      flag_setRegByte _ _ _ _ (show REG.ACCUM ≠ REG.STATUS by decide),
      flag_withFlag, isBit_ite10, isBit_ite01, ↓reduceIte, reduceCtorEq, u8]
    generalize toInt8 (c_and (c.regs REG.ACCUM).val o.operand.val) = r
    have hr := r.property
    congr 2
    split_ifs <;> omega
  · intro b hb h1 h7
    rw [getRegBit_eq _ _ _ hb, getRegBit_eq _ _ _ hb]
    simp only [setRegByte, Function.update_noteq (show REG.STATUS ≠ REG.ACCUM by decide),
      CPU.withFlag, Function.update_same]
    rw [bitGet_bitSet _ _ _ _ (flagIdx_range FLAG.Z) hb (isBit_ite01 _),
      if_neg (show ¬ b = toInt8 FLAG.Z.toInt from h1),
      bitGet_bitSet _ _ _ _ (flagIdx_range FLAG.S) hb (isBit_ite10 _),
      if_neg (show ¬ b = toInt8 FLAG.S.toInt from h7)]
  · intro R' h1 h2
    simp only [getRegByte, setRegByte, Function.update_noteq h1, regs_withFlag _ _ _ _ h2]

/-- C11, evaluated: `ORA` with accumulator `0x00` and operand `0x00` completes with
accumulator 0 and Zero = 0; with accumulator `0x01` it completes with Zero = 1 and
Sign = 1; with accumulator `0x80` it does not complete.  It passes the result byte
itself to `setFlag` for Zero and for Sign. -/
theorem ORA_flags_from_raw_byte :
    (ORA (cpuWith 0x20 0x00) ⟨toInt8 0x00, 0, MODE.Immediate⟩).map
        (fun c' => (u8 (getRegByte c' REG.ACCUM), getFlag c' FLAG.Z, getFlag c' FLAG.S))
      = some (0x00, some (toInt8 0), some (toInt8 0))
    ∧ (ORA (cpuWith 0x20 0x01) ⟨toInt8 0x00, 0, MODE.Immediate⟩).map
        (fun c' => (u8 (getRegByte c' REG.ACCUM), getFlag c' FLAG.Z, getFlag c' FLAG.S))
      = some (0x01, some (toInt8 1), some (toInt8 1))
    ∧ ORA (cpuWith 0x20 0x80) ⟨toInt8 0x00, 0, MODE.Immediate⟩ = none :=
  ⟨by decide, by decide, Option.isNone_iff_eq_none.mp (by decide)⟩

/-! ## C12: `LDA`, `LDX`, `LDY` -/

theorem load_post (R : REG) (hR : R ≠ REG.STATUS) (c : CPU) (o : OP_CODE_INFO) :
    loadPost R c o (setRegByte
      ((c.withFlag FLAG.S (toInt8 (if c_and o.operand.val 0x80 ≠ 0 then 1 else 0))).withFlag
        FLAG.Z (toInt8 (if o.operand.val ≠ 0 then 0 else 1))) R o.operand) := by
  have hp := o.operand.property
  refine ⟨?_, ?_, ?_, rfl, rfl, ?_, ?_⟩
  · simp only [getRegByte, setRegByte, Function.update_same]
  · rw [getFlag_eq _ _ (by decide)]
    simp only [flag_setRegByte _ _ _ _ hR, flag_withFlag, isBit_ite10, isBit_ite01,
      ↓reduceIte, reduceCtorEq, u8]
    congr 2
    split_ifs <;> omega
  · rw [getFlag_eq _ _ (by decide)]
    simp only [flag_setRegByte _ _ _ _ hR, flag_withFlag, isBit_ite10, isBit_ite01,
      ↓reduceIte, reduceCtorEq, u8, c_and_128]
    congr 2
    split_ifs <;> omega
  · intro R' h1 h2
    simp only [getRegByte, setRegByte, Function.update_noteq h1, regs_withFlag _ _ _ _ h2]
  · intro b hb h1 h7
    rw [getRegBit_eq _ _ _ hb, getRegBit_eq _ _ _ hb]
    simp only [setRegByte, Function.update_noteq (Ne.symm hR), CPU.withFlag,
      Function.update_same]
    rw [bitGet_bitSet _ _ _ _ (flagIdx_range FLAG.Z) hb (isBit_ite01 _),
      if_neg (show ¬ b = toInt8 FLAG.Z.toInt from h1),
      bitGet_bitSet _ _ _ _ (flagIdx_range FLAG.S) hb (isBit_ite10 _),
      if_neg (show ¬ b = toInt8 FLAG.S.toInt from h7)]

theorem LDA_eq (c : CPU) (o : OP_CODE_INFO) :
    LDA c o = some (setRegByte
      ((c.withFlag FLAG.S (toInt8 (if c_and o.operand.val 0x80 ≠ 0 then 1 else 0))).withFlag
        FLAG.Z (toInt8 (if o.operand.val ≠ 0 then 0 else 1))) REG.ACCUM o.operand) := by
  simp only [LDA, setSign_eq, setZero_eq, Option.some_bind, Option.bind_eq_bind,
    Option.pure_def, bind, pure]

theorem LDX_eq (c : CPU) (o : OP_CODE_INFO) :
    LDX c o = some (setRegByte
      ((c.withFlag FLAG.S (toInt8 (if c_and o.operand.val 0x80 ≠ 0 then 1 else 0))).withFlag
        FLAG.Z (toInt8 (if o.operand.val ≠ 0 then 0 else 1))) REG.IND_X o.operand) := by
  simp only [LDX, setSign_eq, setZero_eq, Option.some_bind, Option.bind_eq_bind,
    Option.pure_def, bind, pure]

theorem LDY_eq (c : CPU) (o : OP_CODE_INFO) :
    LDY c o = some (setRegByte
      ((c.withFlag FLAG.S (toInt8 (if c_and o.operand.val 0x80 ≠ 0 then 1 else 0))).withFlag
        FLAG.Z (toInt8 (if o.operand.val ≠ 0 then 0 else 1))) REG.IND_Y o.operand) := by
  simp only [LDY, setSign_eq, setZero_eq, Option.some_bind, Option.bind_eq_bind,
    Option.pure_def, bind, pure]

/-- C12: for every CPU state and operand byte `v`, `LDA` (resp. `LDX`, `LDY`) completes
and leaves accumulator (resp. index-X, index-Y) = `v`, Zero = 1 iff `v` = 0, Sign =
bit 7 of `v`, and the PC, the memory, the other registers and every status bit other
than Zero and Sign unchanged. -/
theorem load_result (c : CPU) (o : OP_CODE_INFO) :
    (∃ c', LDA c o = some c' ∧ loadPost REG.ACCUM c o c')
      ∧ (∃ c', LDX c o = some c' ∧ loadPost REG.IND_X c o c')
      ∧ (∃ c', LDY c o = some c' ∧ loadPost REG.IND_Y c o c') :=
  ⟨⟨_, LDA_eq c o, load_post _ (by decide) c o⟩,
   ⟨_, LDX_eq c o, load_post _ (by decide) c o⟩,
   ⟨_, LDY_eq c o, load_post _ (by decide) c o⟩⟩

/-- C12 at the inputs of the spec: `LDA 0x00` gives Zero 1 and Sign 0, `LDA 0x80`
gives Sign 1 and Zero 0. -/
theorem load_result_witness :
    (∃ c', LDA (cpuWith 0x20 0x55) ⟨toInt8 0x00, 0, MODE.Immediate⟩ = some c'
        ∧ getRegByte c' REG.ACCUM = toInt8 0x00
        ∧ getFlag c' FLAG.Z = some (toInt8 1) ∧ getFlag c' FLAG.S = some (toInt8 0))
      ∧ (∃ c', LDA (cpuWith 0x20 0x55) ⟨toInt8 0x80, 0, MODE.Immediate⟩ = some c'
        ∧ getRegByte c' REG.ACCUM = toInt8 0x80
        ∧ getFlag c' FLAG.Z = some (toInt8 0) ∧ getFlag c' FLAG.S = some (toInt8 1)) :=
  ⟨(load_result (cpuWith 0x20 0x55) ⟨toInt8 0x00, 0, MODE.Immediate⟩).1.imp
      (fun _ h => ⟨h.1, h.2.1, h.2.2.1, h.2.2.2.1⟩),
   (load_result (cpuWith 0x20 0x55) ⟨toInt8 0x80, 0, MODE.Immediate⟩).1.imp
      (fun _ h => ⟨h.1, h.2.1, h.2.2.1, h.2.2.2.1⟩)⟩

/-! ## C13: `ASL` -/

theorem c_shl_one (x : Int) (h0 : 0 ≤ x) (h1 : x < 65536) : c_shl x 1 = 2 * x := by
  unfold c_shl toU32 ofU32
  have e : (1 : Int).toNat = 1 := rfl
  rw [e, Nat.shiftLeft_eq]
  split <;> omega

theorem ASL_eq (c : CPU) (o : OP_CODE_INFO) :
    ASL c o =
      (if o.mode = MODE.Accumulator then
        some (setRegByte
          (((c.withFlag FLAG.C
              (toInt8 (if (toInt16 (c_shl (c_and 0x00FF o.operand.val) 1)).val > 0xFF
                then 1 else 0))).withFlag
            FLAG.S (toInt8 (if c_and (toInt8 (c_and
              (toInt16 (c_shl (c_and 0x00FF o.operand.val) 1)).val 0x00FF)).val 0x80 ≠ 0
                then 1 else 0))).withFlag
            FLAG.Z (toInt8 (if (toInt8 (c_and
              (toInt16 (c_shl (c_and 0x00FF o.operand.val) 1)).val 0x00FF)).val ≠ 0
                then 0 else 1)))
          REG.ACCUM (toInt8 (toInt16 (c_shl (c_and 0x00FF o.operand.val) 1)).val))
      else
        some (write
          (((c.withFlag FLAG.C
              (toInt8 (if (toInt16 (c_shl (c_and 0x00FF o.operand.val) 1)).val > 0xFF
                then 1 else 0))).withFlag
            FLAG.S (toInt8 (if c_and (toInt8 (c_and
              (toInt16 (c_shl (c_and 0x00FF o.operand.val) 1)).val 0x00FF)).val 0x80 ≠ 0
                then 1 else 0))).withFlag
            FLAG.Z (toInt8 (if (toInt8 (c_and
              (toInt16 (c_shl (c_and 0x00FF o.operand.val) 1)).val 0x00FF)).val ≠ 0
                then 0 else 1)))
          o.address (toInt8 (toInt16 (c_shl (c_and 0x00FF o.operand.val) 1)).val))) := by
  simp only [ASL, setCarry_eq, setSign_eq, setZero_eq, Option.some_bind,
    Option.bind_eq_bind, Option.pure_def, bind, pure]

theorem asl_res (v : int8_t) :
    (toInt16 (c_shl (c_and 0x00FF v.val) 1)).val = 2 * ((u8 v : Nat) : Int) := by
  have hv := v.property
  rw [c_and_comm, c_and_255, c_shl_one _ (by omega) (by omega),
    toInt16_small _ (by omega) (by omega)]
  unfold u8
  omega

/-- C13: for every operand byte `v`, `ASL` completes with result r = (2 * v) mod 256,
Carry = bit 7 of `v`, Sign = bit 7 of r and Zero = 1 iff r = 0.  In Accumulator mode
the accumulator becomes r and the memory is unchanged; in every other mode the memory
at the effective address becomes r, the rest of the memory and the accumulator are
unchanged. -/
theorem ASL_result (c : CPU) (o : OP_CODE_INFO) :
    ∃ c', ASL c o = some c'
      ∧ getFlag c' FLAG.C = some (toInt8 ((u8 o.operand / 128 : Nat) : Int))
      ∧ getFlag c' FLAG.S = some (toInt8 ((2 * u8 o.operand % 256 / 128 : Nat) : Int))
      ∧ getFlag c' FLAG.Z = some (toInt8 (if 2 * u8 o.operand % 256 = 0 then 1 else 0))
      ∧ (o.mode = MODE.Accumulator →
          u8 (getRegByte c' REG.ACCUM) = 2 * u8 o.operand % 256
            ∧ c'.addressSpace = c.addressSpace)
      ∧ (o.mode ≠ MODE.Accumulator →
          u8 (read c' o.address) = 2 * u8 o.operand % 256
            ∧ (∀ a, a ≠ o.address → read c' a = read c a)
            ∧ getRegByte c' REG.ACCUM = getRegByte c REG.ACCUM) := by
  have hlt := u8_lt o.operand
  have hres := asl_res o.operand
  by_cases hm : o.mode = MODE.Accumulator
  · refine ⟨_, (ASL_eq c o).trans (if_pos hm), ?_, ?_, ?_, ?_, ?_⟩
    · rw [getFlag_eq _ _ (by decide)]
      simp only [flag_setRegByte _ _ _ _ (show REG.ACCUM ≠ REG.STATUS by decide),
        flag_withFlag, isBit_ite10, isBit_ite01, ↓reduceIte, reduceCtorEq, hres]
      congr 2
      split_ifs <;> omega
    · rw [getFlag_eq _ _ (by decide)]
      simp only [flag_setRegByte _ _ _ _ (show REG.ACCUM ≠ REG.STATUS by decide),
        flag_withFlag, isBit_ite10, isBit_ite01, ↓reduceIte, reduceCtorEq, hres,
        c_and_255, c_and_128, toInt8_val]
      congr 2
      split_ifs <;> omega
    · rw [getFlag_eq _ _ (by decide)]
      simp only [flag_setRegByte _ _ _ _ (show REG.ACCUM ≠ REG.STATUS by decide),
        flag_withFlag, isBit_ite10, isBit_ite01, ↓reduceIte, reduceCtorEq, hres,
        c_and_255, toInt8_val]
      congr 2
      split_ifs <;> omega
    · intro _
      refine ⟨?_, rfl⟩
      rw [getRegByte_setRegByte, u8_toInt8, hres]
      omega
    · intro h; exact absurd hm h
  · refine ⟨_, (ASL_eq c o).trans (if_neg hm), ?_, ?_, ?_, ?_, ?_⟩
    · rw [getFlag_eq _ _ (by decide)]
      simp only [flag_write, flag_withFlag, isBit_ite10, isBit_ite01, ↓reduceIte,
        reduceCtorEq, hres]
      congr 2
      split_ifs <;> omega
    · rw [getFlag_eq _ _ (by decide)]
      simp only [flag_write, flag_withFlag, isBit_ite10, isBit_ite01, ↓reduceIte,
        reduceCtorEq, hres, c_and_255, c_and_128, toInt8_val]
      congr 2
      split_ifs <;> omega
    · rw [getFlag_eq _ _ (by decide)]
      simp only [flag_write, flag_withFlag, isBit_ite10, isBit_ite01, ↓reduceIte,
        reduceCtorEq, hres, c_and_255, toInt8_val]
      congr 2
      split_ifs <;> omega
    · intro h; exact absurd h hm
    · intro _
      refine ⟨?_, ?_, ?_⟩
      · simp only [read, write, Function.update_same]
        rw [u8_toInt8, hres]
        omega
      · intro a ha
        simp only [read, write, Function.update_noteq ha]
        rfl
      · simp only [getRegByte, write]
        rw [regs_withFlag _ _ _ _ (by decide), regs_withFlag _ _ _ _ (by decide),
          regs_withFlag _ _ _ _ (by decide)]

/-- C13 at the input of the spec: `ASL` in Accumulator mode on `0x81` gives
accumulator `0x02`, Carry 1, Sign 0 and Zero 0. -/
theorem ASL_result_witness :
    ∃ c', ASL (cpuWith 0x20 0x81) ⟨toInt8 0x81, 0, MODE.Accumulator⟩ = some c'
      ∧ getFlag c' FLAG.C = some (toInt8 1)
      ∧ getFlag c' FLAG.S = some (toInt8 0)
      ∧ getFlag c' FLAG.Z = some (toInt8 0)
      ∧ u8 (getRegByte c' REG.ACCUM) = 0x02 :=
  (ASL_result (cpuWith 0x20 0x81) ⟨toInt8 0x81, 0, MODE.Accumulator⟩).imp
    (fun _ h => ⟨h.1, h.2.1, h.2.2.1, h.2.2.2.1, (h.2.2.2.2.1 rfl).1⟩)

/-! ## C14: the branches -/

theorem branch_clear_eq (c : CPU) (o : OP_CODE_INFO) (f : FLAG)
    (hf : f ≠ FLAG.NOT_USED_FLAG) :
    (getFlag c f >>= fun v =>
        if v.val = 0 then (pure { c with PC := o.address } : Option CPU) else pure c)
      = some (if (c.flag f).val = 0 then { c with PC := o.address } else c) := by
  rw [getFlag_eq _ _ hf]
  simp only [Option.some_bind, Option.bind_eq_bind, Option.pure_def, bind, pure]
  split <;> rfl

theorem branch_set_eq (c : CPU) (o : OP_CODE_INFO) (f : FLAG)
    (hf : f ≠ FLAG.NOT_USED_FLAG) :
    (getFlag c f >>= fun v =>
        if v.val ≠ 0 then (pure { c with PC := o.address } : Option CPU) else pure c)
      = some (if (c.flag f).val = 1 then { c with PC := o.address } else c) := by
  rw [getFlag_eq _ _ hf]
  simp only [Option.some_bind, Option.bind_eq_bind, Option.pure_def, bind, pure]
  have hb := isBit_flag c f
  unfold isBit at hb
  by_cases h : (c.flag f).val = 1
  · rw [if_pos (by omega), if_pos h]
  · rw [if_neg (by omega), if_neg h]

/-- C14: for every CPU state and effective address `e`, each branch completes; `BCC`
yields the state with PC = `e` when Carry = 0 and the unchanged state otherwise, `BCS`
does so when Carry = 1, `BNE`/`BEQ` on Zero = 0/1, `BPL`/`BMI` on Sign = 0/1,
`BVC`/`BVS` on Overflow = 0/1.  Nothing but the PC differs from the state before, and
each flag is 0 or 1, so exactly one handler of each pair takes the branch. -/
theorem branch_result (c : CPU) (o : OP_CODE_INFO) :
    ∃ cf zf sf vf : int8_t,
      (getFlag c FLAG.C = some cf ∧ getFlag c FLAG.Z = some zf
        ∧ getFlag c FLAG.S = some sf ∧ getFlag c FLAG.V = some vf)
      ∧ ((cf.val = 0 ∨ cf.val = 1) ∧ (zf.val = 0 ∨ zf.val = 1)
        ∧ (sf.val = 0 ∨ sf.val = 1) ∧ (vf.val = 0 ∨ vf.val = 1))
      ∧ BCC c o = some (if cf.val = 0 then { c with PC := o.address } else c)
      ∧ BCS c o = some (if cf.val = 1 then { c with PC := o.address } else c)
      ∧ BNE c o = some (if zf.val = 0 then { c with PC := o.address } else c)
      ∧ BEQ c o = some (if zf.val = 1 then { c with PC := o.address } else c)
      ∧ BPL c o = some (if sf.val = 0 then { c with PC := o.address } else c)
      ∧ BMI c o = some (if sf.val = 1 then { c with PC := o.address } else c)
      ∧ BVC c o = some (if vf.val = 0 then { c with PC := o.address } else c)
      ∧ BVS c o = some (if vf.val = 1 then { c with PC := o.address } else c) :=
  ⟨c.flag FLAG.C, c.flag FLAG.Z, c.flag FLAG.S, c.flag FLAG.V,
    ⟨getFlag_eq _ _ (by decide), getFlag_eq _ _ (by decide), getFlag_eq _ _ (by decide),
      getFlag_eq _ _ (by decide)⟩,
    ⟨isBit_flag _ _, isBit_flag _ _, isBit_flag _ _, isBit_flag _ _⟩,
    branch_clear_eq c o FLAG.C (by decide), branch_set_eq c o FLAG.C (by decide),
    branch_clear_eq c o FLAG.Z (by decide), branch_set_eq c o FLAG.Z (by decide),
    branch_clear_eq c o FLAG.S (by decide), branch_set_eq c o FLAG.S (by decide),
    branch_clear_eq c o FLAG.V (by decide), branch_set_eq c o FLAG.V (by decide)⟩

/-! ## C15: `resetCPU` -/

/-- C15: from every CPU state `s`, `resetCPU` completes with the state that `getCPU`
returns: PC = 0, status = `0x20`, the other four registers 0 and every memory byte 0;
resetting that state again gives the same state. -/
theorem resetCPU_eq_getCPU (s : CPU) :
    resetCPU s = getCPU
      ∧ ∃ c0, getCPU = some c0
        ∧ c0.PC = 0
        ∧ u8 (getRegByte c0 REG.STATUS) = 0x20
        ∧ (∀ R, R ≠ REG.STATUS → u8 (getRegByte c0 R) = 0)
        ∧ (∀ a, u8 (read c0 a) = 0)
        ∧ resetCPU c0 = some c0 := by
  refine ⟨rfl, initCPU, getCPU_eq, rfl, by decide, ?_, ?_, ?_⟩
  · intro R hR
    cases R
    · exact absurd rfl hR
    all_goals decide
  · intro a
    rfl
  · exact (show resetCPU initCPU = getCPU from rfl).trans getCPU_eq

/-! ## C16: when the bit accessors fail -/

theorem setRegBit_none (c : CPU) (name : REG) (bit val : int8_t) :
    setRegBit c name bit val = none
      ↔ ¬ (0 ≤ bit.val ∧ bit.val ≤ 7) ∨ ¬ (val.val = 0 ∨ val.val = 1) := by
  unfold setRegBit
  by_cases hb : bit.val > -1 ∧ bit.val < 8
  · by_cases hv : val.val = 0 ∨ val.val = 1
    · rw [if_pos hb, if_pos hv]
      constructor
      · intro h; exact absurd h (by simp)
      · intro h
        rcases h with h | h
        · exact absurd (show 0 ≤ bit.val ∧ bit.val ≤ 7 by omega) h
        · exact absurd hv h
    · rw [if_pos hb, if_neg hv]
      exact ⟨fun _ => Or.inr hv, fun _ => rfl⟩
  · rw [if_neg hb]
    exact ⟨fun _ => Or.inl (by omega), fun _ => rfl⟩

theorem getRegBit_none (c : CPU) (name : REG) (bit : int8_t) :
    getRegBit c name bit = none ↔ ¬ (0 ≤ bit.val ∧ bit.val ≤ 7) := by
  unfold getRegBit
  by_cases hb : bit.val > -1 ∧ bit.val < 8
  · rw [if_pos hb]
    constructor
    · intro h; exact absurd h (by simp)
    · intro h; exact absurd (show 0 ≤ bit.val ∧ bit.val ≤ 7 by omega) h
  · rw [if_neg hb]
    exact ⟨fun _ => by omega, fun _ => rfl⟩

theorem setRegBitRun_spec (c : CPU) (name : REG) (bit val : int8_t) :
    (setRegBitRun c name bit val).toOption = setRegBit c name bit val
      ∧ ∀ e, setRegBitRun c name bit val = Except.error e → e = c := by
  unfold setRegBitRun setRegBit
  split
  · split
    · exact ⟨rfl, fun e h => by cases h⟩
    · exact ⟨rfl, fun e h => by injection h with h; exact h.symm⟩
  · exact ⟨rfl, fun e h => by injection h with h; exact h.symm⟩

theorem getRegBitRun_spec (c : CPU) (name : REG) (bit : int8_t) :
    (getRegBitRun c name bit).toOption = getRegBit c name bit
      ∧ ∀ e, getRegBitRun c name bit = Except.error e → e = c := by
  unfold getRegBitRun getRegBit
  split
  · exact ⟨rfl, fun e h => by cases h⟩
  · exact ⟨rfl, fun e h => by injection h with h; exact h.symm⟩

/-- C16: `setRegBit` fails iff the bit index is outside 0..7 or the value is outside
{0,1}; `getRegBit` fails iff the bit index is outside 0..7; `setFlag` fails iff the
flag is the reserved one or the value is outside {0,1}; `getFlag` fails iff the flag is
the reserved one.  A call that fails stops with the CPU as it was, and a `setFlag`
that succeeds sets the named status bit and changes nothing else. -/
theorem accessor_failure (c : CPU) (name : REG) (f : FLAG) (bit val : int8_t) :
    (setRegBit c name bit val = none
        ↔ ¬ (0 ≤ bit.val ∧ bit.val ≤ 7) ∨ ¬ (val.val = 0 ∨ val.val = 1))
      ∧ (getRegBit c name bit = none ↔ ¬ (0 ≤ bit.val ∧ bit.val ≤ 7))
      ∧ (setFlag c f val = none
        ↔ f = FLAG.NOT_USED_FLAG ∨ ¬ (val.val = 0 ∨ val.val = 1))
      ∧ (getFlag c f = none ↔ f = FLAG.NOT_USED_FLAG)
      ∧ ((setRegBitRun c name bit val).toOption = setRegBit c name bit val
        ∧ ∀ e, setRegBitRun c name bit val = Except.error e → e = c)
      ∧ ((getRegBitRun c name bit).toOption = getRegBit c name bit
        ∧ ∀ e, getRegBitRun c name bit = Except.error e → e = c)
      ∧ ((setFlagRun c f val).toOption = setFlag c f val
        ∧ ∀ e, setFlagRun c f val = Except.error e → e = c)
      ∧ ((getFlagRun c f).toOption = getFlag c f
        ∧ ∀ e, getFlagRun c f = Except.error e → e = c)
      ∧ (∀ c', setFlag c f val = some c' →
          getFlag c' f = some val
          ∧ (∀ b : int8_t, 0 ≤ b.val ∧ b.val ≤ 7 → b ≠ toInt8 f.toInt →
              getRegBit c' REG.STATUS b = getRegBit c REG.STATUS b)
          ∧ (∀ R, R ≠ REG.STATUS → getRegByte c' R = getRegByte c R)
          ∧ c'.PC = c.PC
          ∧ c'.addressSpace = c.addressSpace) := by
  refine ⟨setRegBit_none c name bit val, getRegBit_none c name bit, ?_, ?_,
    setRegBitRun_spec c name bit val, getRegBitRun_spec c name bit, ?_, ?_, ?_⟩
  · unfold setFlag
    by_cases hf : f = FLAG.NOT_USED_FLAG
    · rw [if_neg (not_not.mpr hf)]
      exact ⟨fun _ => Or.inl hf, fun _ => rfl⟩
    · rw [if_pos hf, setRegBit_none]
      have hr := flagIdx_range f
      constructor
      · intro h
        rcases h with h | h
        · exact absurd hr h
        · exact Or.inr h
      · intro h
        rcases h with h | h
        · exact absurd h hf
        · exact Or.inr h
  · unfold getFlag
    by_cases hf : f = FLAG.NOT_USED_FLAG
    · rw [if_neg (not_not.mpr hf)]
      exact ⟨fun _ => hf, fun _ => rfl⟩
    · rw [if_pos hf, getRegBit_none]
      exact ⟨fun h => absurd (flagIdx_range f) h, fun h => absurd h hf⟩
  · unfold setFlagRun setFlag
    split
    · exact setRegBitRun_spec _ _ _ _
    · exact ⟨rfl, fun e h => by injection h with h; exact h.symm⟩
  · unfold getFlagRun getFlag
    split
    · exact getRegBitRun_spec _ _ _
    · exact ⟨rfl, fun e h => by injection h with h; exact h.symm⟩
  · intro c' h
    obtain ⟨hf, hv, rfl⟩ := setFlag_some _ _ _ _ h
    refine ⟨?_, ?_, ?_, rfl, rfl⟩
    · rw [getFlag_eq _ _ hf, flag_withFlag _ _ _ _ hv, if_pos rfl]
    · intro b hb hne
      rw [getRegBit_eq _ _ _ hb, getRegBit_eq _ _ _ hb]
      simp only [CPU.withFlag, setRegByte, Function.update_same]
      rw [bitGet_bitSet _ _ _ _ (flagIdx_range f) hb hv, if_neg hne]
    · intro R hR
      simp only [getRegByte, regs_withFlag _ _ _ _ hR]

/-! ## C17: `JMP` -/

theorem c_and_65535 (x : Int) : c_and 65535 x = x % 65536 := by
  have h : toU32 65535 = 2 ^ 16 - 1 := by decide
  unfold c_and
  rw [Nat.and_comm, h, Nat.and_pow_two_sub_one_eq_mod]
  unfold toU32 ofU32
  norm_num
  omega

/-- C17: for every CPU state and Opcode Context with effective address `e`, `JMP`
completes with PC = `e` mod 65536 (which is `e`), whatever the PC was, and with the
registers (status included) and the memory unchanged. -/
theorem JMP_result (c : CPU) (o : OP_CODE_INFO) :
    ∃ c', JMP c o = some c'
      ∧ c'.PC.val = o.address.val % 65536
      ∧ c'.PC = o.address
      ∧ c'.regs = c.regs
      ∧ c'.addressSpace = c.addressSpace := by
  have hlt := o.address.isLt
  have hpc : (toUint16 (c_and 0xFFFF (o.address.val : Int))).val = o.address.val := by
    rw [c_and_65535]
    unfold toUint16
    simp only
    omega
  refine ⟨_, rfl, ?_, ?_, rfl, rfl⟩
  · rw [hpc]; omega
  · exact Fin.ext hpc

/-! ## C18: `LSR` -/

/-- C18, evaluated: `LSR` in Accumulator mode on the operand `0x80` leaves accumulator
`0xC0` (not `0x40`) and Sign = 1; in Absolute mode it writes `0xC0` to the effective
address.  The operand is an `int8_t`, so `o->operand >> 1` shifts the sign bit in.
On `0x7E` the result is `0x3F` with Sign 0, as for every operand below `0x80`. -/
theorem LSR_shifts_sign_in :
    (LSR (cpuWith 0x20 0x00) ⟨toInt8 0x80, 0, MODE.Accumulator⟩).map
        (fun c' => (u8 (getRegByte c' REG.ACCUM), getFlag c' FLAG.S, getFlag c' FLAG.C,
          getFlag c' FLAG.Z))
      = some (0xC0, some (toInt8 1), some (toInt8 0), some (toInt8 0))
    ∧ (LSR (cpuWith 0x20 0x00) ⟨toInt8 0x80, 0x1234, MODE.Absolute⟩).map
        (fun c' => (u8 (read c' 0x1234), getFlag c' FLAG.S))
      = some (0xC0, some (toInt8 1))
    ∧ (LSR (cpuWith 0x20 0x00) ⟨toInt8 0x7E, 0, MODE.Accumulator⟩).map
        (fun c' => (u8 (getRegByte c' REG.ACCUM), getFlag c' FLAG.S))
      = some (0x3F, some (toInt8 0)) := by
  decide

/-! ## `SBC` in closed form -/

theorem SBC_eq (c : CPU) (o : OP_CODE_INFO) :
    SBC c o =
      some (setRegByte
        ((((c.withFlag FLAG.S
              (toInt8 (if c_and (toInt8 (c_and
                (sbcDiff (c.flag FLAG.C) (c.regs REG.ACCUM) o.operand).val 0x00FF)).val 0x80 ≠ 0
                then 1 else 0))).withFlag
            FLAG.Z (toInt8 (if (toInt8 (c_and
                (sbcDiff (c.flag FLAG.C) (c.regs REG.ACCUM) o.operand).val 0x00FF)).val ≠ 0
                then 0 else 1))).withFlag
            FLAG.V (toInt8
              (if c_and (c_xor (c.regs REG.ACCUM).val o.operand.val) 0x80 ≠ 0
                  ∧ c_and (c_xor (c.regs REG.ACCUM).val (toInt8 (c_and
                      (sbcDiff (c.flag FLAG.C) (c.regs REG.ACCUM) o.operand).val
                        0x00FF)).val) 0x80 ≠ 0
               then 1 else 0))).withFlag
            FLAG.C (toInt8
              (if (sbcAdjust (c.flag FLAG.D) (c.flag FLAG.C) (c.regs REG.ACCUM) o.operand
                    (sbcDiff (c.flag FLAG.C) (c.regs REG.ACCUM) o.operand)).val < 0x100
               then 1 else 0)))
        REG.ACCUM
        (toInt8 (c_and
          (sbcAdjust (c.flag FLAG.D) (c.flag FLAG.C) (c.regs REG.ACCUM) o.operand
            (sbcDiff (c.flag FLAG.C) (c.regs REG.ACCUM) o.operand)).val 0xFF))) := by
  simp only [SBC, getFlag_eq _ FLAG.C (by decide), getFlag_eq _ FLAG.D (by decide),
    setZero_eq, setSign_eq, setOverflowSubtract_eq,
    setFlag_eq _ FLAG.C _ (by decide) (isBit_ite10 _), getRegByte,
    flag_withFlag, isBit_ite10, isBit_ite01, ↓reduceIte, reduceCtorEq,
    Option.some_bind, Option.bind_eq_bind, Option.pure_def, bind, pure]
  rfl

/-! ## C19: the overflow flag of `SBC` -/

/-- C19: in either Decimal setting and with carry-in `cin`, `SBC` completes and sets
Overflow to 1 exactly when the signed difference of accumulator, operand and carry-in
(the two bytes read in two's complement) is outside -128..127. -/
theorem SBC_overflow (c : CPU) (o : OP_CODE_INFO) (cin : int8_t)
    (hC : getFlag c FLAG.C = some cin) :
    ∃ c', SBC c o = some c'
      ∧ getFlag c' FLAG.V = some (toInt8
          (if (getRegByte c REG.ACCUM).val - o.operand.val - cin.val < -128
              ∨ (getRegByte c REG.ACCUM).val - o.operand.val - cin.val > 127
           then 1 else 0)) := by
  have hC' := getFlag_some _ _ _ hC
  have hcin : isBit cin := hC' ▸ isBit_flag c FLAG.C
  have ha := (c.regs REG.ACCUM).property
  have hm := o.operand.property
  unfold isBit at hcin
  refine ⟨_, SBC_eq c o, ?_⟩
  rw [getFlag_eq _ _ (by decide)]
  simp only [flag_setRegByte _ _ _ _ (show REG.ACCUM ≠ REG.STATUS by decide),
    flag_withFlag, isBit_ite10, isBit_ite01, ↓reduceIte, hC', c_and_255,
    c_and_comm 255, c_and_xor_128, getRegByte, reduceCtorEq, sbcDiff]
  congr 2
  simp only [toInt16_val, toInt8_val]
  by_cases ha0 : (c.regs REG.ACCUM).val < 0 <;> by_cases hm0 : o.operand.val < 0 <;>
    rcases hcin with h | h <;> split_ifs <;> omega

/-- C19 at a concrete input: `0x80 - 0x01` with carry 0 is -129 and sets Overflow, in
decimal mode as well. -/
theorem SBC_overflow_witness :
    getFlag (cpuWith 0x28 0x80) FLAG.C = some (toInt8 0)
      ∧ ∃ c', SBC (cpuWith 0x28 0x80) ⟨toInt8 0x01, 0, MODE.Immediate⟩ = some c'
        ∧ getFlag c' FLAG.V = some (toInt8 1) :=
  ⟨by decide,
    SBC_overflow (cpuWith 0x28 0x80) ⟨toInt8 0x01, 0, MODE.Immediate⟩ (toInt8 0)
      (by decide)⟩

/-! ## C20: decimal `SBC` on packed BCD without borrow -/

theorem sbc_decimal_core (a m cin : int8_t) (ha : validBCD a) (hm : validBCD m)
    (hc : isBit cin) (hge : bcdValue a ≥ bcdValue m + u8 cin) :
    (sbcAdjust (toInt8 1) cin a m (sbcDiff cin a m)).val % 256
      = ((bcdEncode (bcdValue a - bcdValue m - u8 cin) : Nat) : Int) := by
  have hap := a.property
  have hmp := m.property
  unfold validBCD at ha hm
  unfold isBit at hc
  unfold bcdValue at hge
  have hA : a.val % 256 = ((u8 a : Nat) : Int) := by unfold u8; omega
  have hM : m.val % 256 = ((u8 m : Nat) : Int) := by unfold u8; omega
  have hC : cin.val % 256 = ((u8 cin : Nat) : Int) := by unfold u8; omega
  have hC' : cin.val = ((u8 cin : Nat) : Int) := by unfold u8; omega
  have hA16 : a.val % 16 = ((u8 a % 16 : Nat) : Int) := by unfold u8; omega
  have hM16 : m.val % 16 = ((u8 m % 16 : Nat) : Int) := by unfold u8; omega
  have hAlt := u8_lt a
  have hMlt := u8_lt m
  have hClt : u8 cin < 2 := by unfold u8; omega
  have h1 : (toInt8 1).val ≠ 0 := by decide
  unfold sbcAdjust sbcDiff bcdValue bcdEncode
  simp only [c_and_255, c_and_comm 255, c_and_15, h1, ne_eq, not_false_eq_true, ↓reduceIte]
  rw [hA, hM, hC, hA16, hM16, hC']
  generalize u8 a = A at *
  generalize u8 m = M at *
  generalize u8 cin = C at *
  clear hA hM hC hC' hA16 hM16 hap hmp hc h1
  rw [toInt16_small (↑A - ↑M - ↑C) (by omega) (by omega)]
  by_cases hL : ((A % 16 : Nat) : Int) - (C : Int) < ((M % 16 : Nat) : Int)
  · rw [if_pos hL, toInt16_small _ (by omega) (by omega)]
    have hS : ¬ ((A : Int) - ↑M - ↑C - 6 > 153) := by omega
    rw [if_neg hS, toInt16_small _ (by omega) (by omega)]
    omega
  · rw [if_neg hL, toInt16_small _ (by omega) (by omega)]
    have hS : ¬ ((A : Int) - ↑M - ↑C > 153) := by omega
    rw [if_neg hS, toInt16_small _ (by omega) (by omega)]
    omega

/-- C20: with the Decimal flag set, a packed-BCD accumulator and operand and carry-in
`cin` such that the decimal value of the accumulator is at least that of the operand
plus `cin`, `SBC` completes and leaves in the accumulator the packed-BCD encoding of
the decimal difference. -/
theorem SBC_decimal_bcd (c : CPU) (o : OP_CODE_INFO) (cin : int8_t)
    (hC : getFlag c FLAG.C = some cin) (hD : getFlag c FLAG.D = some (toInt8 1))
    (ha : validBCD (getRegByte c REG.ACCUM)) (hm : validBCD o.operand)
    (hge : bcdValue (getRegByte c REG.ACCUM) ≥ bcdValue o.operand + u8 cin) :
    ∃ c', SBC c o = some c'
      ∧ u8 (getRegByte c' REG.ACCUM)
          = bcdEncode (bcdValue (getRegByte c REG.ACCUM) - bcdValue o.operand - u8 cin) := by
  have hC' := getFlag_some _ _ _ hC
  have hD' := getFlag_some _ _ _ hD
  have hcin : isBit cin := hC' ▸ isBit_flag c FLAG.C
  have k := sbc_decimal_core (c.regs REG.ACCUM) o.operand cin ha hm hcin hge
  refine ⟨_, SBC_eq c o, ?_⟩
  rw [getRegByte_setRegByte, u8_toInt8, c_and_255, hC', hD']
  simp only [getRegByte]
  rw [k]
  omega

/-- C20 at a concrete input: decimal `0x20 - 0x01` with carry 0 gives `0x19`. -/
theorem SBC_decimal_bcd_witness :
    getFlag (cpuWith 0x28 0x20) FLAG.C = some (toInt8 0)
      ∧ getFlag (cpuWith 0x28 0x20) FLAG.D = some (toInt8 1)
      ∧ validBCD (getRegByte (cpuWith 0x28 0x20) REG.ACCUM)
      ∧ validBCD (toInt8 0x01)
      ∧ bcdValue (getRegByte (cpuWith 0x28 0x20) REG.ACCUM)
          ≥ bcdValue (toInt8 0x01) + u8 (toInt8 0)
      ∧ ∃ c', SBC (cpuWith 0x28 0x20) ⟨toInt8 0x01, 0, MODE.Immediate⟩ = some c'
        ∧ u8 (getRegByte c' REG.ACCUM) = 0x19 :=
  ⟨by decide, by decide, by decide, by decide, by decide,
    SBC_decimal_bcd (cpuWith 0x28 0x20) ⟨toInt8 0x01, 0, MODE.Immediate⟩ (toInt8 0)
      (by decide) (by decide) (by decide) (by decide) (by decide)⟩

end NESEmu
